import Mathlib

/-!
# bt: breadth-first directory-tree reporter (src/bt.c)

A shallow embedding of `bt.c`.  C strings are lists of characters, the
process state (heap of queue nodes, the global queue, standard output,
standard error) is passed explicitly, and everything the program obtains
from the operating system or the C library (probes, directory listings,
identity lookups, date rendering, allocation outcomes, the contents of
uninitialised stack storage) is collected in a `World` value.
-/

namespace Bt

/-! ## Strings and printf conversions -/

/-- A C string: its characters, without the terminating NUL. -/
abbrev Str := List Char

/-- Decimal digits of an unsigned value (the digits `%u` and `%i` produce). -/
def dec (n : Nat) : Str := Nat.toDigits 10 n

/-- Right-justify in a field of the given minimum width (`%10u`, `%9u`). -/
def rjust (width : Nat) (t : Str) : Str := List.replicate (width - t.length) ' ' ++ t

/-- Left-justify in a field of the given minimum width (`%-10s`). -/
def ljust (width : Nat) (t : Str) : Str := t ++ List.replicate (width - t.length) ' '

/-- Conversion to `unsigned int`: what `%u` renders of a wider argument and
what `get_size_unit` receives for its `unsigned int` parameter. -/
def to_uint (n : Nat) : Nat := n % 4294967296

/-- Conversion `(int)` of an unsigned value (two's complement, 32 bits). -/
def to_int (n : Nat) : Int :=
  if n % 4294967296 < 2147483648 then (n % 4294967296 : Nat) else ((n % 4294967296 : Nat) : Int) - 4294967296

/-- Rendering of `%i`. -/
def fmt_i (z : Int) : Str := if z < 0 then '-' :: dec z.natAbs else dec z.natAbs

/-- Rendering of `%s` from a character buffer: the characters before the first NUL. -/
def fmt_s (buf : List Char) : Str := buf.takeWhile (fun c => c ≠ Char.ofNat 0)

/-! ## System constants (sys/stat.h, sys/param.h on Linux) -/

def S_IFMT : Nat := 0o170000
def S_IFSOCK : Nat := 0o140000
def S_IFLNK : Nat := 0o120000
def S_IFREG : Nat := 0o100000
def S_IFBLK : Nat := 0o060000
def S_IFDIR : Nat := 0o040000
def S_IFCHR : Nat := 0o020000
def S_IFIFO : Nat := 0o010000
def S_IRUSR : Nat := 0o400
def S_IWUSR : Nat := 0o200
def S_IXUSR : Nat := 0o100
def S_IRGRP : Nat := 0o040
def S_IWGRP : Nat := 0o020
def S_IXGRP : Nat := 0o010
def S_IROTH : Nat := 0o004
def S_IWOTH : Nat := 0o002
def S_IXOTH : Nat := 0o001
def PATH_MAX : Nat := 4096
def EXIT_FAILURE : Int := 1

def S_ISLNK (mode : Nat) : Bool := mode &&& S_IFMT == S_IFLNK
def S_ISDIR (mode : Nat) : Bool := mode &&& S_IFMT == S_IFDIR
def S_ISREG (mode : Nat) : Bool := mode &&& S_IFMT == S_IFREG
def S_ISSOCK (mode : Nat) : Bool := mode &&& S_IFMT == S_IFSOCK
def S_ISFIFO (mode : Nat) : Bool := mode &&& S_IFMT == S_IFIFO
def S_ISBLK (mode : Nat) : Bool := mode &&& S_IFMT == S_IFBLK
def S_ISCHR (mode : Nat) : Bool := mode &&& S_IFMT == S_IFCHR

/-! ## Data model -/

/-- The fields of `struct stat` that the program reads. -/
structure stat_t where
  st_mode : Nat
  st_nlink : Nat
  st_uid : Nat
  st_gid : Nat
  st_size : Nat
  st_mtime : Int
deriving DecidableEq, Repr

/-- The program parameters (the `static int` flags of lines 27-34). -/
structure Config where
  follow_symlinks : Bool
  print_filetype : Bool
  print_perms : Bool
  print_links : Bool
  print_userid : Bool
  print_grpid : Bool
  size_in_units : Bool
  print_last_mtime : Bool
deriving DecidableEq, Repr

/-- Everything the program obtains from its environment. -/
structure World where
  /-- Following probe `stat(2)`; `none` when it returns -1. -/
  stat : Str → Option stat_t
  /-- Non-following probe `lstat(2)`; `none` when it returns -1. -/
  lstat : Str → Option stat_t
  /-- The names `readdir` yields for a directory, in order; `none` when `opendir` fails. -/
  opendir : Str → Option (List Str)
  /-- Owner name lookup `getpwuid(uid)->pw_name`; `none` when it returns NULL. -/
  getpwuid : Nat → Option Str
  /-- Group name lookup `getgrgid(gid)->gr_name`; `none` when it returns NULL. -/
  getgrgid : Nat → Option Str
  /-- Result of `localtime_r` then `strftime` with the format `%h %d, %Y`. -/
  strftime : Int → Str
  /-- Whether the n-th request for a queue node (`calloc`) is granted. -/
  calloc_ok : Nat → Bool
  /-- Contents of the `struct stat st` local of `visit` when the probe did not fill it. -/
  uninit_st : Str → stat_t
  /-- Contents of the byte `p[9]` of the local buffer of `visit`, which no statement writes. -/
  uninit_p9 : Str → Char
  /-- Result of `getcwd`; `none` when it returns NULL. -/
  getcwd : Option Str
  /-- Whether the storage for the root path (`malloc`, `strdup`) is granted. -/
  root_alloc_ok : Bool

/-- A `struct node`: the stored path and the address of the next node. -/
structure node where
  str : Str
  next : Option Nat
deriving DecidableEq, Repr

/-- A `struct queue`; `none` is the NULL pointer. The counter `num_nodes` is
an `int` in the source; it is kept unbounded here (it could only overflow
with 2^31 nodes allocated at once). -/
structure queue where
  front : Option Nat
  back : Option Nat
  num_nodes : Int
deriving DecidableEq, Repr

/-- A message on standard error. -/
inductive Diag where
  | perror : Diag
  | not_a_dir : Str → Diag
deriving DecidableEq, Repr

/-- Record of the operations performed, kept beside the program state. -/
inductive Event where
  | visited : Str → Event
  | enqueued : Str → Event
  | enqueue_failed : Str → Event
  | dequeued : Str → Event
  | listed : Str → Event
  | list_failed : Str → Event
deriving DecidableEq, Repr

/-- The process state. `heap a` is the node stored at address `a`, if that
address is allocated; `brk` counts the `calloc` requests made so far, and the
n-th request, when granted, returns the address `n`. -/
structure State where
  heap : Nat → Option node
  brk : Nat
  queue : queue
  out : Str
  err : List Diag
  trace : List Event

/-- The state `main` sets up: `queue.front = queue.back = NULL; queue.num_nodes = 0`. -/
def State.init : State :=
  { heap := fun _ => none, brk := 0, queue := ⟨none, none, 0⟩, out := [], err := [], trace := [] }

/-- Write of one heap cell. -/
def upd (heap : Nat → Option node) (a : Nat) (v : Option node) : Nat → Option node :=
  fun x => if x = a then v else heap x

/-- The call `perror(...)`. -/
def perror (s : State) : State := { s with err := s.err ++ [Diag.perror] }

/-- Output on standard output. -/
def print (s : State) (t : Str) : State := { s with out := s.out ++ t }

/-- Append to the record of operations. -/
def note (s : State) (e : Event) : State := { s with trace := s.trace ++ [e] }

/-! ## Queue (lines 42-87) -/

def is_empty (q : queue) : Bool := q.num_nodes == 0

/-- The assignment `q->back->next = qn`. -/
def set_back_next (heap : Nat → Option node) (back : Option Nat) (qn : Nat) : Nat → Option node :=
  match back with
  | some b =>
    match heap b with
    | some n => upd heap b (some { n with next := some qn })
    | none => heap
  | none => heap

/-- `enqueue(&queue, str)`. The copy made by `strdup` is taken to succeed
(the source does not test it). -/
def enqueue (w : World) (str : Str) (s : State) : Int × State :=
  if w.calloc_ok s.brk = false then
    (-1, note (perror { s with brk := s.brk + 1 }) (Event.enqueue_failed str))
  else
    let qn := s.brk
    let heap1 := upd s.heap qn (some { str := str, next := none })
    if is_empty s.queue then
      (0, note { s with heap := heap1, brk := s.brk + 1,
                        queue := { front := some qn, back := some qn, num_nodes := s.queue.num_nodes + 1 } }
            (Event.enqueued str))
    else
      (0, note { s with heap := set_back_next heap1 s.queue.back qn, brk := s.brk + 1,
                        queue := { front := s.queue.front, back := some qn, num_nodes := s.queue.num_nodes + 1 } }
            (Event.enqueued str))

/-- `dequeue(&queue)`; the result `none` is NULL. -/
def dequeue (s : State) : Option Str × State :=
  if is_empty s.queue = false then
    match s.queue.front with
    | some qn =>
      match s.heap qn with
      | some n =>
        let front := n.next
        let back := if front = none then none else s.queue.back
        (some n.str, note { s with heap := upd s.heap qn none,
                                   queue := { front := front, back := back, num_nodes := s.queue.num_nodes - 1 } }
                      (Event.dequeued n.str))
      | none => (none, s)
    | none => (none, s)
  else (none, s)

/-! ## Size unit (lines 90-98) -/

/-- The array `unit[] = "bKMG?"`, six bytes with its NUL. -/
def unit : List Char := ['b', 'K', 'M', 'G', '?', Char.ofNat 0]

/-- The loop of `get_size_unit`: `while((size > 1024) && (index < sizeof(unit)))`.
The first argument bounds the number of iterations. -/
def get_size_unit_loop : Nat → Nat → Nat → Nat × Nat
  | 0, size, index => (size, index)
  | fuel + 1, size, index =>
    if size > 1024 ∧ index < 6 then get_size_unit_loop fuel (size / 1024) (index + 1)
    else (size, index)

/-- Final value of `index` in `get_size_unit`; six iterations exhaust the guard `index < 6`. -/
def get_size_unit_index (size : Nat) : Nat := (get_size_unit_loop 6 size 0).2

/-- Final value of `size` in `get_size_unit`. -/
def get_size_unit_scaled (size : Nat) : Nat := (get_size_unit_loop 6 size 0).1

/-- `get_size_unit(size)` for an `unsigned int` argument: `unit[index]`. -/
def get_size_unit (size : Nat) : Char := unit.getD (get_size_unit_index size) (Char.ofNat 0)

/-! ## Visitor (lines 101-201) -/

/-- The probe both `visit` and `is_directory` use: `stat` when following links, `lstat` otherwise. -/
def probe (w : World) (cfg : Config) (path : Str) : Option stat_t :=
  if cfg.follow_symlinks then w.stat path else w.lstat path

/-- The `switch(st.st_mode & S_IFMT)` of lines 113-130. -/
def filetype_char (mode : Nat) : Char :=
  if mode &&& S_IFMT = S_IFSOCK then 's'
  else if mode &&& S_IFMT = S_IFLNK then 'l'
  else if mode &&& S_IFMT = S_IFREG then '-'
  else if mode &&& S_IFMT = S_IFBLK then 'b'
  else if mode &&& S_IFMT = S_IFCHR then 'c'
  else if mode &&& S_IFMT = S_IFDIR then 'd'
  else if mode &&& S_IFMT = S_IFIFO then '|'
  else '?'

/-- The buffer `char p[10]` of lines 135-149 together with the byte that
follows it: `memset(p, '-', 9)` fills `p[0..8]`, `p[9]` keeps the value `p9`
it had on entry, and `p[10] = 0` writes the byte after the array; then the
nine conditional assignments. -/
def perm_buf (mode : Nat) (p9 : Char) : List Char :=
  let p : List Char := List.replicate 9 '-' ++ [p9, Char.ofNat 0]
  let p := if mode &&& S_IRUSR ≠ 0 then p.set 0 'r' else p
  let p := if mode &&& S_IWUSR ≠ 0 then p.set 1 'w' else p
  let p := if mode &&& S_IXUSR ≠ 0 then p.set 2 'x' else p
  let p := if mode &&& S_IRGRP ≠ 0 then p.set 3 'r' else p
  let p := if mode &&& S_IWGRP ≠ 0 then p.set 4 'w' else p
  let p := if mode &&& S_IXGRP ≠ 0 then p.set 5 'x' else p
  let p := if mode &&& S_IROTH ≠ 0 then p.set 6 'r' else p
  let p := if mode &&& S_IWOTH ≠ 0 then p.set 7 'w' else p
  let p := if mode &&& S_IXOTH ≠ 0 then p.set 8 'x' else p
  p

/-- What `printf("%s ", p)` of line 151 writes. -/
def perm_field (mode : Nat) (p9 : Char) : Str := fmt_s (perm_buf mode p9) ++ [' ']

/-- What `printf("%i ", (int)st.st_nlink)` of line 156 writes. -/
def links_field (nlink : Nat) : Str := fmt_i (to_int nlink) ++ [' ']

/-- What `printf("%-10s ", name)` of lines 165 and 175 writes. -/
def name_field (name : Str) : Str := ljust 10 name ++ [' ']

/-- Lines 178-187: the size output. `st.st_size` is handed to `%u`, which
renders its low 32 bits, and to the `unsigned int` parameter of `get_size_unit`. -/
def size_field (cfg : Config) (st_size : Nat) : Str :=
  if cfg.size_in_units then
    if get_size_unit (to_uint st_size) ≠ 'b' then
      rjust 9 (dec (to_uint st_size)) ++ [get_size_unit (to_uint st_size), ' ']
    else
      rjust 10 (dec (to_uint st_size)) ++ [' ']
  else
    rjust 10 (dec (to_uint st_size)) ++ [' ']

/-- Lines 159-166: the owner field; `none` when `getpwuid` returns NULL. -/
def visit_owner (w : World) (cfg : Config) (st : stat_t) (s : State) : Option State :=
  if cfg.print_userid then
    match w.getpwuid st.st_uid with
    | none => none
    | some pw_name => some (print s (name_field pw_name))
  else some s

/-- Lines 169-176: the group field; `none` when `getgrgid` returns NULL. -/
def visit_group (w : World) (cfg : Config) (st : stat_t) (s : State) : Option State :=
  if cfg.print_grpid then
    match w.getgrgid st.st_gid with
    | none => none
    | some gr_name => some (print s (name_field gr_name))
  else some s

/-- The snapshot `visit` renders: the probe's result, or whatever the local
`st` held when the probe failed (its return value `rv` is not tested). -/
def visit_stat (w : World) (cfg : Config) (path : Str) : stat_t :=
  match probe w cfg path with
  | some st => st
  | none => w.uninit_st path

/-- Lines 112-157 of `visit`: the file type, permission and link count output. -/
def visit_head (w : World) (cfg : Config) (path : Str) (st : stat_t) (s1 : State) : State :=
  let s2 := if cfg.print_filetype then print s1 [filetype_char st.st_mode] else s1
  let s3 := if cfg.print_perms then print s2 (perm_field st.st_mode (w.uninit_p9 path)) else s2
  if cfg.print_links then print s3 (links_field st.st_nlink) else s3

/-- Lines 178-198 of `visit`: the size and date output, then the path and the newline. -/
def visit_tail (w : World) (cfg : Config) (path : Str) (st : stat_t) (s6 : State) : State :=
  let s7 := print s6 (size_field cfg st.st_size)
  let s8 := if cfg.print_last_mtime then print s7 (w.strftime st.st_mtime ++ [' ']) else s7
  print s8 (path ++ ['\n'])

/-- `visit(path)`. -/
def visit (w : World) (cfg : Config) (path : Str) (s0 : State) : Int × State :=
  let st := visit_stat w cfg path
  let s4 := visit_head w cfg path st (note s0 (Event.visited path))
  match visit_owner w cfg st s4 with
  | none => (-1, perror s4)
  | some s5 =>
    match visit_group w cfg st s5 with
    | none => (-1, perror s5)
    | some s6 => (0, visit_tail w cfg path st s6)

/-! ## Classifier (lines 204-228) -/

/-- `is_directory(path)`: -1 when the probe fails, `follow_symlinks` for a
symbolic link, 1 for a directory, 0 otherwise. -/
def is_directory (w : World) (cfg : Config) (path : Str) (s : State) : Int × State :=
  match probe w cfg path with
  | none => (-1, perror s)
  | some st =>
    if S_ISLNK st.st_mode then ((if cfg.follow_symlinks then 1 else 0), s)
    else if !S_ISDIR st.st_mode then (0, s)
    else (1, s)

/-! ## Traverser (lines 231-275) -/

/-- `snprintf(path, PATH_MAX, "%s/%s", dirname, d_name)`: at most `PATH_MAX - 1` characters are kept. -/
def child_path (dirname d_name : Str) : Str := (dirname ++ '/' :: d_name).take (PATH_MAX - 1)

/-- One iteration of the `readdir` loop of `traversal` (lines 243-257). -/
def traversal_entry (w : World) (cfg : Config) (dirname : Str) (s : State) (d_name : Str) : State :=
  if d_name = ['.'] ∨ d_name = ['.', '.'] then s
  else
    let path := child_path dirname d_name
    let r := is_directory w cfg path s
    let s2 := if r.1 ≠ 0 then (enqueue w path r.2).2 else r.2
    (visit w cfg path s2).2

/-- `traversal(dirname)`. -/
def traversal (w : World) (cfg : Config) (dirname : Str) (s : State) : Int × State :=
  match w.opendir dirname with
  | none => (-1, note (perror s) (Event.list_failed dirname))
  | some ents => (0, ents.foldl (traversal_entry w cfg dirname) (note s (Event.listed dirname)))

/-- The body of the loop of `breadthfirst` (lines 270-272). A NULL result of
`dequeue` cannot occur there, the guard having found the queue non-empty. -/
def breadthfirst_body (w : World) (cfg : Config) (s : State) : State :=
  match dequeue s with
  | (some next, s1) => (traversal w cfg next s1).2
  | (none, s1) => s1

/-- The loop `while(!is_empty(&queue))` run for at most the given number of iterations. -/
def breadthfirst_loop (w : World) (cfg : Config) : Nat → State → State
  | 0, s => s
  | k + 1, s => if is_empty s.queue then s else breadthfirst_loop w cfg k (breadthfirst_body w cfg s)

/-- The state of `breadthfirst()` after `visit(root)` and at most `k` iterations of its loop. -/
def breadthfirst_steps (w : World) (cfg : Config) (root : Str) (k : Nat) (s : State) : State :=
  breadthfirst_loop w cfg k (visit w cfg root s).2

/-- `breadthfirst()`: returns once the loop has found the queue empty;
`none` when the given number of iterations did not suffice. -/
def breadthfirst (w : World) (cfg : Config) (root : Str) (fuel : Nat) (s : State) : Option (Int × State) :=
  if is_empty (breadthfirst_steps w cfg root fuel s).queue then some (0, breadthfirst_steps w cfg root fuel s)
  else none

/-! ## Program (lines 296-384) -/

/-- The part of `parse_arguments` after option parsing (lines 324-352), for
the optional `dirname` argument. `Except.error` is `exit(EXIT_FAILURE)`. -/
def parse_arguments (w : World) (cfg : Config) (dirname : Option Str) (s : State) : Except State (Str × State) :=
  match dirname with
  | none =>
    if w.root_alloc_ok = false then Except.error (perror s)
    else
      match w.getcwd with
      | none => Except.error (perror s)
      | some cwd => Except.ok (cwd, s)
  | some arg =>
    let r := is_directory w cfg arg s
    if r.1 = 0 then Except.error { r.2 with err := r.2.err ++ [Diag.not_a_dir arg] }
    else if w.root_alloc_ok = false then Except.error (perror r.2)
    else Except.ok (arg, r.2)

/-- `main`: the exit status and the final state; `none` when the loop of
`breadthfirst` did not finish within `fuel` iterations. -/
def main (w : World) (cfg : Config) (dirname : Option Str) (fuel : Nat) : Option (Int × State) :=
  match parse_arguments w cfg dirname State.init with
  | Except.error s => some (EXIT_FAILURE, s)
  | Except.ok (root, s) =>
    match breadthfirst w cfg root fuel (enqueue w root s).2 with
    | none => none
    | some r => some (0, r.2)

/-! ## Specification vocabulary -/

/-- The nodes `ns` (address and stored path, head first) are chained by their
`next` pointers from the pointer `p` to NULL. -/
def linked (heap : Nat → Option node) : Option Nat → List (Nat × Str) → Prop
  | p, [] => p = none
  | p, (a, x) :: rest => p = some a ∧ ∃ nx, heap a = some ⟨x, nx⟩ ∧ linked heap nx rest

/-- The queue of state `s` holds the paths `L`, head first: `front` starts a
chain of distinct allocated nodes that stores `L`, `back` is the last node of
the chain and `num_nodes` its length. -/
def holds (s : State) (L : List Str) : Prop :=
  ∃ ns : List (Nat × Str), ns.map Prod.snd = L ∧ linked s.heap s.queue.front ns ∧
    (ns.map Prod.fst).Nodup ∧ (∀ a ∈ ns.map Prod.fst, a < s.brk) ∧
    s.queue.back = (ns.map Prod.fst).getLast? ∧ s.queue.num_nodes = ns.length

/-- Enqueue the paths of a list, one after the other. -/
def enqueue_all (w : World) (ps : List Str) (s : State) : State :=
  ps.foldl (fun t p => (enqueue w p t).2) s

/-- Results of `n` successive calls of `dequeue`, and the state they leave. -/
def dequeue_n : Nat → State → List (Option Str) × State
  | 0, s => ([], s)
  | n + 1, s => ((dequeue s).1 :: (dequeue_n n (dequeue s).2).1, (dequeue_n n (dequeue s).2).2)

/-- A world in which every probe, listing and lookup fails and every allocation is granted. -/
def World.bare : World :=
  { stat := fun _ => none, lstat := fun _ => none, opendir := fun _ => none,
    getpwuid := fun _ => none, getgrgid := fun _ => none, strftime := fun _ => [],
    calloc_ok := fun _ => true, uninit_st := fun _ => ⟨0, 0, 0, 0, 0, 0⟩,
    uninit_p9 := fun _ => Char.ofNat 0, getcwd := none, root_alloc_ok := true }

/-- The configuration with every flag off. -/
def Config.off : Config := ⟨false, false, false, false, false, false, false, false⟩

/-- A world in which no queue node can be allocated. -/
def World.no_memory : World := { World.bare with calloc_ok := fun _ => false }

/-- The path an event reports as successfully enqueued. -/
def Event.enq : Event → Option Str
  | Event.enqueued p => some p
  | _ => none

/-- The path an event reports as dequeued. -/
def Event.deq : Event → Option Str
  | Event.dequeued p => some p
  | _ => none

/-- The path an event reports as visited. -/
def Event.vis : Event → Option Str
  | Event.visited p => some p
  | _ => none

/-- The paths enqueued, in the order of the calls. -/
def enqueued_paths (tr : List Event) : List Str := tr.filterMap Event.enq

/-- The paths dequeued, in the order of the calls. -/
def dequeued_paths (tr : List Event) : List Str := tr.filterMap Event.deq

/-- The paths visited, in the order of the calls. -/
def visited_paths (tr : List Event) : List Str := tr.filterMap Event.vis

/-- Whether a directory entry is the self or the parent reference. -/
def is_dot (d_name : Str) : Bool := decide (d_name = ['.'] ∨ d_name = ['.', '.'])

/-- The child paths of a directory in listing order, `.` and `..` excluded;
a directory whose listing cannot be opened has none. -/
def children (w : World) (dirname : Str) : List Str :=
  match w.opendir dirname with
  | none => []
  | some ents => (ents.filter (fun d => !is_dot d)).map (child_path dirname)

/-- The text of the size field without its separating space. -/
def size_text (cfg : Config) (st_size : Nat) : Str :=
  if cfg.size_in_units = true ∧ get_size_unit (to_uint st_size) ≠ 'b' then
    rjust 9 (dec (to_uint st_size)) ++ [get_size_unit (to_uint st_size)]
  else rjust 10 (dec (to_uint st_size))

/-- The file-type field with its flag. -/
def type_field (cfg : Config) (st : stat_t) : List (Bool × Str) :=
  [(cfg.print_filetype, [filetype_char st.st_mode])]

/-- The fields after the file type, each with its flag, in line order and
without separators: permissions, link count, owner, group, size, date. -/
def tail_fields (cfg : Config) (st : stat_t) (p9 : Char) (owner group date : Str) : List (Bool × Str) :=
  [(cfg.print_perms, fmt_s (perm_buf st.st_mode p9)),
   (cfg.print_links, fmt_i (to_int st.st_nlink)),
   (cfg.print_userid, ljust 10 owner),
   (cfg.print_grpid, ljust 10 group),
   (true, size_text cfg st.st_size),
   (cfg.print_last_mtime, date)]

/-- The enabled fields of a list, each followed by one space. -/
def spaced (fields : List (Bool × Str)) : Str :=
  ((fields.filter (fun f => f.1)).map (fun f => f.2 ++ [' '])).flatten

/-- The enabled fields of a list with nothing after them. -/
def unspaced (fields : List (Bool × Str)) : Str :=
  ((fields.filter (fun f => f.1)).map (fun f => f.2)).flatten

/-- The line as claim C7 words it: every enabled field, the file type
included, is followed by one space; then the path and a newline. -/
def spec_line (cfg : Config) (st : stat_t) (p9 : Char) (owner group date path : Str) : Str :=
  spaced (type_field cfg st ++ tail_fields cfg st p9 owner group date) ++ path ++ ['\n']

/-- The line layout with the file-type character directly followed by the
next field, every other enabled field being followed by one space. -/
def code_line (cfg : Config) (st : stat_t) (p9 : Char) (owner group date path : Str) : Str :=
  unspaced (type_field cfg st) ++ spaced (tail_fields cfg st p9 owner group date) ++ path ++ ['\n']

/-- The line of an entry: `code_line` of the snapshot `visit` renders, with
the names the identity lookups return. -/
def entry_line (w : World) (cfg : Config) (path : Str) : Str :=
  code_line cfg (visit_stat w cfg path) (w.uninit_p9 path)
    ((w.getpwuid (visit_stat w cfg path).st_uid).getD [])
    ((w.getgrgid (visit_stat w cfg path).st_gid).getD [])
    (w.strftime (visit_stat w cfg path).st_mtime) path

/-- The size field as claim C6 words it: the value left by the divisions of
`get_size_unit`, right-justified in 9 characters, the unit letter, one space. -/
def spec_unit_size_field (st_size : Nat) : Str :=
  rjust 9 (dec (get_size_unit_scaled (to_uint st_size))) ++ [get_size_unit (to_uint st_size), ' ']

/-- The permission string as claim C8 words it: nine characters, `r`, `w`,
`x` for owner, group, other where the bit is set and `-` where it is not. -/
def spec_perm_string (mode : Nat) : Str :=
  [if mode &&& S_IRUSR ≠ 0 then 'r' else '-',
   if mode &&& S_IWUSR ≠ 0 then 'w' else '-',
   if mode &&& S_IXUSR ≠ 0 then 'x' else '-',
   if mode &&& S_IRGRP ≠ 0 then 'r' else '-',
   if mode &&& S_IWGRP ≠ 0 then 'w' else '-',
   if mode &&& S_IXGRP ≠ 0 then 'x' else '-',
   if mode &&& S_IROTH ≠ 0 then 'r' else '-',
   if mode &&& S_IWOTH ≠ 0 then 'w' else '-',
   if mode &&& S_IXOTH ≠ 0 then 'x' else '-']

/-- A regular file with the given permission bits, owner 1000, group 1000 and size. -/
def regular_file (perms size : Nat) : stat_t :=
  { st_mode := S_IFREG ||| perms, st_nlink := 1, st_uid := 1000, st_gid := 1000,
    st_size := size, st_mtime := 0 }

/-- A directory with mode 0755 owned by user 1000, group 1000. -/
def directory : stat_t :=
  { st_mode := S_IFDIR ||| 0o755, st_nlink := 2, st_uid := 1000, st_gid := 1000,
    st_size := 4096, st_mtime := 0 }

/-- A world with the tree `r/a.txt` (5 bytes), `r/sub/`, `r/sub/b.txt` (2000
bytes); the listings also yield `.` and `..`; user and group 1000 are known. -/
def World.tree : World :=
  { World.bare with
    lstat := fun p =>
      if p = "r".toList ∨ p = "r/sub".toList then some directory
      else if p = "r/a.txt".toList then some (regular_file 0o644 5)
      else if p = "r/sub/b.txt".toList then some (regular_file 0o644 2000)
      else none
    stat := fun p =>
      if p = "r".toList ∨ p = "r/sub".toList then some directory
      else if p = "r/a.txt".toList then some (regular_file 0o644 5)
      else if p = "r/sub/b.txt".toList then some (regular_file 0o644 2000)
      else none
    opendir := fun p =>
      if p = "r".toList then some [".".toList, "..".toList, "a.txt".toList, "sub".toList]
      else if p = "r/sub".toList then some [".".toList, "..".toList, "b.txt".toList]
      else none
    getpwuid := fun u => if u = 1000 then some "user".toList else none
    getgrgid := fun g => if g = 1000 then some "staff".toList else none }

/-- The directory `d` lists one entry `x` whose probe fails (for instance
an entry removed between the listing and the probe). -/
def World.vanished_child : World :=
  { World.bare with opendir := fun p => if p = "d".toList then some ["x".toList] else none }

/-- The file `a` is a regular file of mode 0750 and 2000 bytes whose owner
has no entry in the user database; the byte `p[9]` of `visit` holds `X`. -/
def World.one_file : World :=
  { World.bare with
    lstat := fun p => if p = "a".toList then some (regular_file 0o750 2000) else none
    getgrgid := fun g => if g = 1000 then some "staff".toList else none
    uninit_p9 := fun _ => 'X' }


/-- The state of the program once `main` has done `enqueue(&queue, root)` and
`breadthfirst()` has done `visit(root)` and at most `k` iterations of its loop. -/
def run (w : World) (cfg : Config) (root : Str) (k : Nat) : State :=
  breadthfirst_steps w cfg root k (enqueue w root State.init).2

/-- The indices of `p` that the statements of lines 136-149 of `visit` write,
in order: `memset(p, '-', 9)` writes 0 to 8, line 137 writes index 10, and
each permission bit that is set writes its own position. -/
def perm_writes (mode : Nat) : List Nat :=
  List.range 9 ++ [10] ++
  (if mode &&& S_IRUSR ≠ 0 then [0] else []) ++
  (if mode &&& S_IWUSR ≠ 0 then [1] else []) ++
  (if mode &&& S_IXUSR ≠ 0 then [2] else []) ++
  (if mode &&& S_IRGRP ≠ 0 then [3] else []) ++
  (if mode &&& S_IWGRP ≠ 0 then [4] else []) ++
  (if mode &&& S_IXGRP ≠ 0 then [5] else []) ++
  (if mode &&& S_IROTH ≠ 0 then [6] else []) ++
  (if mode &&& S_IWOTH ≠ 0 then [7] else []) ++
  (if mode &&& S_IXOTH ≠ 0 then [8] else [])

/-- A call on the queue: `enqueue(&queue, str)` or `dequeue(&queue)`. -/
inductive QueueOp where
  | enq : Str → QueueOp
  | deq : QueueOp
deriving DecidableEq, Repr

/-- The state after one call on the queue. -/
def apply_op (w : World) (s : State) : QueueOp → State
  | QueueOp.enq str => (enqueue w str s).2
  | QueueOp.deq => (dequeue s).2

/-- The state after a sequence of calls on the queue. -/
def apply_ops (w : World) (ops : List QueueOp) (s : State) : State :=
  ops.foldl (apply_op w) s

/-- The answer of the classifier for a path; it does not depend on the state. -/
def classify (w : World) (cfg : Config) (p : Str) : Int := (is_directory w cfg p State.init).1

/-- Whether `traversal` takes a path as a directory to enqueue: `if (is_directory(path))`. -/
def approved (w : World) (cfg : Config) (p : Str) : Bool := decide (classify w cfg p ≠ 0)

/-- The path an event reports as opened, or tried to be opened, for listing. -/
def Event.opn : Event → Option Str
  | Event.listed p => some p
  | Event.list_failed p => some p
  | _ => none

/-- The paths `traversal` tried to open for listing, in the order of the calls. -/
def opened_paths (tr : List Event) : List Str := tr.filterMap Event.opn

/-- What `visit` writes on standard output for a path: a whole line, or the
fields written before an identity lookup failed. -/
def visit_text (w : World) (cfg : Config) (p : Str) : Str := (visit w cfg p State.init).2.out

/-- From state `s` to state `t` nothing was dequeued, the paths `E` were
added at the tail of the queue, the paths `V` were visited and their text
written, and the listings of `O` were tried. -/
def grows (w : World) (cfg : Config) (s t : State) (E V O : List Str) : Prop :=
  (∀ L, holds s L → holds t (L ++ E)) ∧
  enqueued_paths t.trace = enqueued_paths s.trace ++ E ∧
  dequeued_paths t.trace = dequeued_paths s.trace ∧
  visited_paths t.trace = visited_paths s.trace ++ V ∧
  opened_paths t.trace = opened_paths s.trace ++ O ∧
  t.out = s.out ++ (V.map (visit_text w cfg)).flatten

/-- The invariant of the loop of `breadthfirst` for the root `root`: the
paths enqueued are those dequeued followed by those still queued; the paths
visited are the root and the children of the dequeued directories; every
dequeued directory had its listing tried once; standard output is the text of
the visited paths; and the paths enqueued are the root and approved children
of dequeued directories, all of them when no allocation is refused. -/
def bfs_inv (w : World) (cfg : Config) (root : Str) (s : State) : Prop :=
  ∃ L, holds s L ∧
    enqueued_paths s.trace = dequeued_paths s.trace ++ L ∧
    visited_paths s.trace = root :: (dequeued_paths s.trace).flatMap (children w) ∧
    opened_paths s.trace = dequeued_paths s.trace ∧
    s.out = ((visited_paths s.trace).map (visit_text w cfg)).flatten ∧
    (enqueued_paths s.trace).Sublist
      (root :: ((dequeued_paths s.trace).flatMap (children w)).filter (approved w cfg)) ∧
    ((∀ i, w.calloc_ok i = true) →
      enqueued_paths s.trace =
        root :: ((dequeued_paths s.trace).flatMap (children w)).filter (approved w cfg))

/-- The directory `r` lists the directory `sub` and then the file `a.txt`;
only the first node allocation is granted. -/
def World.low_memory : World :=
  { World.tree with
    opendir := fun p =>
      if p = "r".toList then some ["sub".toList, "a.txt".toList]
      else if p = "r/sub".toList then some ["b.txt".toList]
      else none
    calloc_ok := fun i => decide (i = 0) }

/-- A symbolic link, as the non-following probe reports it. -/
def symlink : stat_t :=
  { st_mode := S_IFLNK ||| 0o777, st_nlink := 1, st_uid := 1000, st_gid := 1000,
    st_size := 3, st_mtime := 0 }

/-- The sample tree with one more entry `r/link`, a symbolic link to the
directory `r/sub`, listed first. -/
def World.with_link : World :=
  { World.tree with
    lstat := fun p => if p = "r/link".toList then some symlink else World.tree.lstat p
    stat := fun p => if p = "r/link".toList then some directory else World.tree.stat p
    opendir := fun p =>
      if p = "r".toList then some ["link".toList, "a.txt".toList, "sub".toList]
      else if p = "r/link".toList then some ["b.txt".toList]
      else World.tree.opendir p }

/-- The world in which the directory `d` is empty, everything else being as in `w`. -/
def World.with_empty_dir (w : World) (d : Str) : World :=
  { w with opendir := fun p => if p = d then some [] else w.opendir p }

/-- Two states that agree on everything the program reads or prints: heap,
allocation counter, queue and standard output, and on the paths enqueued,
dequeued and visited; they may differ in the diagnostics emitted and in how
listings ended. -/
def same_progress (s t : State) : Prop :=
  s.heap = t.heap ∧ s.brk = t.brk ∧ s.queue = t.queue ∧ s.out = t.out ∧
  enqueued_paths s.trace = enqueued_paths t.trace ∧
  dequeued_paths s.trace = dequeued_paths t.trace ∧
  visited_paths s.trace = visited_paths t.trace

/-- Whether the non-following probe reports a directory. -/
def fs_is_dir (w : World) (p : Str) : Bool :=
  match w.lstat p with
  | some st => S_ISDIR st.st_mode
  | none => false

/-- The directories at depth `i` below the root, in listing order; the root
itself is at depth 0. -/
def level_dirs (w : World) (root : Str) : Nat → List Str
  | 0 => [root]
  | i + 1 => ((level_dirs w root i).flatMap (children w)).filter (fs_is_dir w)

/-- The directories of the tree at depth less than `n`, level after level. -/
def tree_dirs (w : World) (root : Str) (n : Nat) : List Str :=
  (List.range n).flatMap (level_dirs w root)

/-- The root and every entry of a directory of the tree at depth less than `n`. -/
def tree_entries (w : World) (root : Str) (n : Nat) : List Str :=
  root :: (tree_dirs w root n).flatMap (children w)

/-- The sample tree when no queue node can be allocated. -/
def World.tree_no_memory : World := { World.tree with calloc_ok := fun _ => false }

/-! ## Theorems -/

/-! ### Queue -/

theorem upd_same (heap : Nat → Option node) (a : Nat) (v : Option node) : upd heap a v a = v := by
  simp [upd]

theorem upd_other (heap : Nat → Option node) (a c : Nat) (v : Option node) (h : c ≠ a) :
    upd heap a v c = heap c := by
  simp [upd, h]

theorem set_back_next_other (heap : Nat → Option node) (b qn c : Nat) (h : c ≠ b) :
    set_back_next heap (some b) qn c = heap c := by
  cases hb : heap b with
  | none => simp [set_back_next, hb]
  | some n => simp [set_back_next, hb, upd, h]

theorem set_back_next_same (heap : Nat → Option node) (b qn : Nat) (n : node) (h : heap b = some n) :
    set_back_next heap (some b) qn b = some { n with next := some qn } := by
  unfold set_back_next
  simp [h, upd]

theorem linked_upd_of_not_mem (heap : Nat → Option node) (a : Nat) (v : Option node) :
    ∀ (ns : List (Nat × Str)) (p : Option Nat), a ∉ ns.map Prod.fst → linked heap p ns →
      linked (upd heap a v) p ns := by
  intro ns
  induction ns with
  | nil => intro p _ h; exact h
  | cons hd rest ih =>
    intro p hmem h
    obtain ⟨c, y⟩ := hd
    obtain ⟨hp, nx, hc, hrest⟩ := h
    simp only [List.map_cons, List.mem_cons, not_or] at hmem
    refine ⟨hp, nx, ?_, ih nx hmem.2 hrest⟩
    rw [upd_other _ _ _ _ (Ne.symm hmem.1)]
    exact hc

theorem linked_snoc (heap : Nat → Option node) (a : Nat) (x : Str) :
    ∀ (ns : List (Nat × Str)) (p : Option Nat), linked heap p ns → ns ≠ [] →
      (ns.map Prod.fst).Nodup → a ∉ ns.map Prod.fst →
      ∃ b, (ns.map Prod.fst).getLast? = some b ∧
        linked (set_back_next (upd heap a (some ⟨x, none⟩)) (some b) a) p (ns ++ [(a, x)]) := by
  intro ns
  induction ns with
  | nil => intro p _ hne; exact absurd rfl hne
  | cons hd rest ih =>
    intro p h _ hnd hmem
    obtain ⟨c, y⟩ := hd
    obtain ⟨hp, nx, hc, hrest⟩ := h
    simp only [List.map_cons, List.mem_cons, not_or, List.nodup_cons] at hmem hnd
    have hca : c ≠ a := Ne.symm hmem.1
    cases rest with
    | nil =>
      refine ⟨c, rfl, hp, some a, ?_, rfl, none, ?_, rfl⟩
      · have hnx : nx = none := hrest
        subst hnx
        rw [set_back_next_same _ c a ⟨y, none⟩ (by rw [upd_other _ _ _ _ hca]; exact hc)]
      · rw [set_back_next_other _ _ _ _ hmem.1, upd_same]
    | cons hd2 rest2 =>
      obtain ⟨b, hb, hl⟩ := ih nx hrest (by simp) hnd.2 hmem.2
      have hbmem : b ∈ (hd2 :: rest2).map Prod.fst := List.mem_of_getLast?_eq_some hb
      have hcb : c ≠ b := fun e => hnd.1 (e ▸ hbmem)
      refine ⟨b, ?_, hp, nx, ?_, hl⟩
      · simpa [List.getLast?_cons_cons] using hb
      · rw [set_back_next_other _ _ _ _ hcb, upd_other _ _ _ _ hca]
        exact hc

theorem holds_is_empty (s : State) (L : List Str) (h : holds s L) :
    is_empty s.queue = true ↔ L = [] := by
  obtain ⟨ns, hmap, _, _, _, _, hnum⟩ := h
  subst hmap
  unfold is_empty
  rw [hnum]
  cases ns with
  | nil => simp
  | cons hd rest =>
    simp only [List.length_cons, List.map_cons, beq_iff_eq]
    constructor
    · intro h0; omega
    · intro h0; exact absurd h0 (by simp)

theorem holds_init : holds State.init [] :=
  ⟨[], rfl, rfl, List.nodup_nil, by simp, rfl, rfl⟩

theorem enqueue_out (w : World) (p : Str) (s : State) : (enqueue w p s).2.out = s.out := by
  unfold enqueue
  split
  · rfl
  · split <;> rfl

theorem enqueue_ok_trace (w : World) (p : Str) (s : State) (hok : w.calloc_ok s.brk = true) :
    (enqueue w p s).2.trace = s.trace ++ [Event.enqueued p] := by
  unfold enqueue
  cases he : is_empty s.queue <;> simp [hok, note]

theorem enqueue_fail (w : World) (p : Str) (s : State) (hno : w.calloc_ok s.brk = false) :
    enqueue w p s = (-1, note (perror { s with brk := s.brk + 1 }) (Event.enqueue_failed p)) := by
  unfold enqueue
  simp [hno]

theorem enqueue_ok_empty (w : World) (p : Str) (s : State) (hok : w.calloc_ok s.brk = true)
    (he : is_empty s.queue = true) :
    enqueue w p s =
      (0, note { s with heap := upd s.heap s.brk (some { str := p, next := none }), brk := s.brk + 1,
                        queue := { front := some s.brk, back := some s.brk,
                                   num_nodes := s.queue.num_nodes + 1 } }
            (Event.enqueued p)) := by
  simp [enqueue, hok, he]

theorem enqueue_ok_nonempty (w : World) (p : Str) (s : State) (hok : w.calloc_ok s.brk = true)
    (he : is_empty s.queue = false) :
    enqueue w p s =
      (0, note { s with heap := set_back_next (upd s.heap s.brk (some { str := p, next := none }))
                                  s.queue.back s.brk,
                        brk := s.brk + 1,
                        queue := { front := s.queue.front, back := some s.brk,
                                   num_nodes := s.queue.num_nodes + 1 } }
            (Event.enqueued p)) := by
  simp [enqueue, hok, he]

theorem enqueue_ok_holds (w : World) (p : Str) (s : State) (L : List Str) (h : holds s L)
    (hok : w.calloc_ok s.brk = true) :
    (enqueue w p s).1 = 0 ∧ holds (enqueue w p s).2 (L ++ [p]) := by
  have hemp := holds_is_empty s L h
  obtain ⟨ns, hmap, hl, hnd, hlt, hback, hnum⟩ := h
  cases ns with
  | nil =>
    have hL : L = [] := by simpa using hmap.symm
    have he : is_empty s.queue = true := hemp.2 hL
    subst hL
    rw [enqueue_ok_empty w p s hok he]
    refine ⟨rfl, [(s.brk, p)], rfl, ⟨rfl, none, ?_, rfl⟩, by simp, ?_, rfl, ?_⟩
    · simp [note, upd]
    · simp [note]
    · simp only [note, hnum]; rfl
  | cons hd rest =>
    have he : is_empty s.queue = false := by
      cases hq : is_empty s.queue with
      | false => rfl
      | true => have := hemp.1 hq; subst this; simp at hmap
    have hfresh : s.brk ∉ (hd :: rest).map Prod.fst := fun hm => absurd (hlt _ hm) (lt_irrefl _)
    obtain ⟨b, hb, hlk⟩ := linked_snoc s.heap s.brk p (hd :: rest) s.queue.front hl (by simp) hnd hfresh
    rw [enqueue_ok_nonempty w p s hok he]
    refine ⟨rfl, (hd :: rest) ++ [(s.brk, p)], ?_, ?_, ?_, ?_, ?_, ?_⟩
    · simp [← hmap]
    · simp only [note, hback, hb]
      exact hlk
    · rw [List.map_append, List.nodup_append]
      refine ⟨hnd, by simp, ?_⟩
      intro a ha hb2
      simp only [List.map_cons, List.map_nil, List.mem_singleton] at hb2
      exact hfresh (hb2 ▸ ha)
    · intro a ha
      simp only [List.map_append, List.mem_append, List.map_cons, List.map_nil, List.mem_singleton] at ha
      simp only [note]
      rcases ha with ha | ha
      · exact Nat.lt_succ_of_lt (hlt a ha)
      · omega
    · simp only [note, List.map_append, List.map_cons, List.map_nil, List.getLast?_concat]
    · simp only [note, hnum, List.length_append, List.length_cons, List.length_nil]
      push_cast
      ring

theorem enqueue_fail_holds (w : World) (p : Str) (s : State) (L : List Str) (h : holds s L)
    (hno : w.calloc_ok s.brk = false) :
    (enqueue w p s).1 = -1 ∧ holds (enqueue w p s).2 L := by
  rw [enqueue_fail w p s hno]
  obtain ⟨ns, hmap, hl, hnd, hlt, hback, hnum⟩ := h
  exact ⟨rfl, ns, hmap, hl, hnd, fun a ha => Nat.lt_succ_of_lt (hlt a ha), hback, hnum⟩

theorem dequeue_cons (s : State) (x : Str) (L : List Str) (h : holds s (x :: L)) :
    ∃ qn n, s.queue.front = some qn ∧ s.heap qn = some n ∧ n.str = x ∧
      dequeue s = (some x, note { s with heap := upd s.heap qn none,
                                          queue := { front := n.next,
                                                     back := if n.next = none then none else s.queue.back,
                                                     num_nodes := s.queue.num_nodes - 1 } }
                            (Event.dequeued x)) := by
  have hemp := holds_is_empty s (x :: L) h
  obtain ⟨ns, hmap, hl, hnd, hlt, hback, hnum⟩ := h
  have he : is_empty s.queue = false := by
    cases hq : is_empty s.queue with
    | false => rfl
    | true => exact absurd (hemp.1 hq) (by simp)
  cases ns with
  | nil => simp at hmap
  | cons hd rest =>
    obtain ⟨a, y⟩ := hd
    obtain ⟨hp, nx, ha, hrest⟩ := hl
    simp only [List.map_cons, List.cons.injEq] at hmap
    obtain ⟨hy, _⟩ := hmap
    subst hy
    refine ⟨a, ⟨y, nx⟩, hp, ha, rfl, ?_⟩
    simp [dequeue, he, hp, ha]

theorem dequeue_holds (s : State) (x : Str) (L : List Str) (h : holds s (x :: L)) :
    (dequeue s).1 = some x ∧ holds (dequeue s).2 L := by
  obtain ⟨qn, n, hf, hh, hx, hd⟩ := dequeue_cons s x L h
  rw [hd]
  refine ⟨rfl, ?_⟩
  obtain ⟨ns, hmap, hl, hnd, hlt, hback, hnum⟩ := h
  cases ns with
  | nil => simp at hmap
  | cons hd rest =>
    obtain ⟨a, y⟩ := hd
    obtain ⟨hp, nx, ha, hrest⟩ := hl
    simp only [List.map_cons, List.cons.injEq] at hmap
    simp only [List.map_cons, List.nodup_cons] at hnd
    have haq : a = qn := by rw [hf] at hp; exact (Option.some.inj hp).symm
    subst haq
    have hn : n = ⟨y, nx⟩ := by rw [ha] at hh; exact (Option.some.inj hh).symm
    subst hn
    refine ⟨rest, hmap.2, ?_, hnd.2, ?_, ?_, ?_⟩
    · exact linked_upd_of_not_mem s.heap a none rest nx hnd.1 hrest
    · intro c hc
      exact hlt c (by simp only [List.map_cons, List.mem_cons]; exact Or.inr hc)
    · simp only [note]
      cases rest with
      | nil =>
        have hnx : nx = none := hrest
        simp [hnx]
      | cons hd2 rest2 =>
        have hnx : nx = some hd2.1 := hrest.1
        simp only [hnx, hback, List.map_cons, List.getLast?_cons_cons]
        simp
    · simp only [note, hnum, List.length_cons]
      push_cast
      ring

theorem dequeue_nil (s : State) (h : holds s []) : dequeue s = (none, s) := by
  have he : is_empty s.queue = true := (holds_is_empty s [] h).2 rfl
  simp [dequeue, he]

theorem enqueue_brk (w : World) (p : Str) (s : State) : (enqueue w p s).2.brk = s.brk + 1 := by
  unfold enqueue
  split
  · rfl
  · split <;> rfl

theorem enqueue_all_holds (w : World) :
    ∀ (ps : List Str) (s : State) (L : List Str), holds s L →
      (∀ i, i < ps.length → w.calloc_ok (s.brk + i) = true) → holds (enqueue_all w ps s) (L ++ ps) := by
  intro ps
  induction ps with
  | nil => intro s L h _; simpa [enqueue_all] using h
  | cons p ps ih =>
    intro s L h hok
    have h0 : w.calloc_ok s.brk = true := by simpa using hok 0 (by simp)
    have h1 := (enqueue_ok_holds w p s L h h0).2
    have h2 := ih (enqueue w p s).2 (L ++ [p]) h1 (by
      intro i hi
      rw [enqueue_brk]
      have := hok (i + 1) (by simp only [List.length_cons]; omega)
      rw [show s.brk + 1 + i = s.brk + (i + 1) by omega]
      exact this)
    simpa [enqueue_all] using h2

theorem dequeue_n_holds :
    ∀ (ps : List Str) (s : State) (R : List Str), holds s (ps ++ R) →
      (dequeue_n ps.length s).1 = ps.map some ∧ holds (dequeue_n ps.length s).2 R := by
  intro ps
  induction ps with
  | nil => intro s R h; exact ⟨rfl, h⟩
  | cons p ps ih =>
    intro s R h
    obtain ⟨h1, h2⟩ := dequeue_holds s p (ps ++ R) h
    obtain ⟨h3, h4⟩ := ih (dequeue s).2 R h2
    refine ⟨?_, h4⟩
    show (dequeue s).1 :: (dequeue_n ps.length (dequeue s).2).1 = some p :: ps.map some
    rw [h1, h3]

/-- C2 (amended): the queue is FIFO. For a queue holding the paths `L`
(head first) and a path `p`: when the node allocation is granted, `enqueue`
returns 0 and leaves the queue holding `L` followed by `p`, and when it is
refused `enqueue` returns -1 and the queue still holds `L`; `dequeue` on a
queue holding `x` followed by `L'` returns `x` and leaves `L'`; `dequeue` on an
empty queue returns NULL and leaves the state unchanged; `is_empty` is true
exactly when no path remains; and n granted enqueues onto an empty queue
followed by n dequeues return the paths in the order they were enqueued. -/
theorem C2_queue_fifo (w : World) (s : State) (L : List Str) (p : Str) (h : holds s L) :
    (w.calloc_ok s.brk = true → (enqueue w p s).1 = 0 ∧ holds (enqueue w p s).2 (L ++ [p])) ∧
    (w.calloc_ok s.brk = false → (enqueue w p s).1 = -1 ∧ holds (enqueue w p s).2 L) ∧
    (∀ x L', L = x :: L' → (dequeue s).1 = some x ∧ holds (dequeue s).2 L') ∧
    (L = [] → dequeue s = (none, s)) ∧
    (is_empty s.queue = true ↔ L = []) ∧
    (L = [] → ∀ ps : List Str, (∀ i, i < ps.length → w.calloc_ok (s.brk + i) = true) →
      (dequeue_n ps.length (enqueue_all w ps s)).1 = ps.map some ∧
      holds (dequeue_n ps.length (enqueue_all w ps s)).2 []) := by
  refine ⟨enqueue_ok_holds w p s L h, enqueue_fail_holds w p s L h, ?_, ?_, holds_is_empty s L h, ?_⟩
  · intro x L' hL
    subst hL
    exact dequeue_holds s x L' h
  · intro hL
    subst hL
    exact dequeue_nil s h
  · intro hL ps hok
    subst hL
    have h1 := enqueue_all_holds w ps s [] h hok
    simp only [List.nil_append] at h1
    exact dequeue_n_holds ps (enqueue_all w ps s) [] (by simpa using h1)

/-- C2 witness: on the initial queue, enqueueing `a` then `b` and dequeueing
twice returns `a` then `b`; and a queue holding `a` yields `a` on dequeue. -/
theorem C2_queue_fifo_witness :
    ((enqueue World.bare ['a'] State.init).1 = 0 ∧ holds (enqueue World.bare ['a'] State.init).2 [['a']]) ∧
    dequeue State.init = (none, State.init) ∧
    (dequeue_n 2 (enqueue_all World.bare [['a'], ['b']] State.init)).1 = [some ['a'], some ['b']] ∧
    (dequeue (enqueue World.bare ['a'] State.init).2).1 = some ['a'] :=
  ⟨(C2_queue_fifo World.bare State.init [] ['a'] holds_init).1 rfl,
   (C2_queue_fifo World.bare State.init [] ['a'] holds_init).2.2.2.1 rfl,
   ((C2_queue_fifo World.bare State.init [] ['a'] holds_init).2.2.2.2.2 rfl [['a'], ['b']]
      (fun _ _ => rfl)).1,
   ((C2_queue_fifo World.bare (enqueue World.bare ['a'] State.init).2 [['a']] ['b']
      (enqueue_ok_holds World.bare ['a'] State.init [] holds_init rfl).2).2.2.1 ['a'] [] rfl).1⟩

/-- C2 counterexample: on the empty initial queue, when the node allocation
is refused, `enqueue` returns -1 and the queue does not hold the path. -/
theorem C2_counterexample :
    holds State.init [] ∧
    ¬ ((enqueue World.no_memory ['a'] State.init).1 = 0 ∧
       holds (enqueue World.no_memory ['a'] State.init).2 ([] ++ [['a']])) := by
  refine ⟨holds_init, ?_⟩
  rintro ⟨h0, _⟩
  rw [enqueue_fail World.no_memory ['a'] State.init rfl] at h0
  exact absurd h0 (by decide)

/-! ### Visitor -/

theorem size_field_eq (cfg : Config) (n : Nat) : size_field cfg n = size_text cfg n ++ [' '] := by
  unfold size_field size_text
  cases cfg.size_in_units <;> simp
  split <;> simp

theorem print_nil (s : State) : print s [] = s := by
  simp [print]

theorem print_print (s : State) (a b : Str) : print (print s a) b = print s (a ++ b) := by
  simp [print]

theorem unspaced_type_field (cfg : Config) (st : stat_t) :
    unspaced (type_field cfg st) = if cfg.print_filetype = true then [filetype_char st.st_mode] else [] := by
  cases h : cfg.print_filetype <;> simp [unspaced, type_field, h]

theorem spaced_tail_fields (cfg : Config) (st : stat_t) (p9 : Char) (owner group date : Str) :
    spaced (tail_fields cfg st p9 owner group date) =
      (if cfg.print_perms = true then perm_field st.st_mode p9 else []) ++
      ((if cfg.print_links = true then links_field st.st_nlink else []) ++
      ((if cfg.print_userid = true then name_field owner else []) ++
      ((if cfg.print_grpid = true then name_field group else []) ++
      (size_field cfg st.st_size ++
      (if cfg.print_last_mtime = true then date ++ [' '] else []))))) := by
  cases h1 : cfg.print_perms <;> cases h2 : cfg.print_links <;> cases h3 : cfg.print_userid <;>
  cases h4 : cfg.print_grpid <;> cases h5 : cfg.print_last_mtime <;>
  simp [spaced, tail_fields, h1, h2, h3, h4, h5, size_field_eq, perm_field, links_field, name_field]

theorem visit_head_eq (w : World) (cfg : Config) (path : Str) (st : stat_t) (s : State) :
    visit_head w cfg path st s =
      print s ((if cfg.print_filetype = true then [filetype_char st.st_mode] else []) ++
        ((if cfg.print_perms = true then perm_field st.st_mode (w.uninit_p9 path) else []) ++
         (if cfg.print_links = true then links_field st.st_nlink else []))) := by
  unfold visit_head
  cases cfg.print_filetype <;> cases cfg.print_perms <;> cases cfg.print_links <;>
  simp [print_nil, print_print]

theorem visit_tail_eq (w : World) (cfg : Config) (path : Str) (st : stat_t) (s : State) :
    visit_tail w cfg path st s =
      print s (size_field cfg st.st_size ++
        ((if cfg.print_last_mtime = true then w.strftime st.st_mtime ++ [' '] else []) ++
         (path ++ ['\n']))) := by
  unfold visit_tail
  cases cfg.print_last_mtime <;> simp [print_print]

theorem visit_owner_some (w : World) (cfg : Config) (st : stat_t) (s t : State)
    (h : visit_owner w cfg st s = some t) :
    t = print s (if cfg.print_userid = true then name_field ((w.getpwuid st.st_uid).getD []) else []) := by
  unfold visit_owner at h
  cases hf : cfg.print_userid with
  | false => simp [hf] at h; simp [h, print_nil]
  | true =>
    cases hu : w.getpwuid st.st_uid with
    | none => simp [hf, hu] at h
    | some name => simp [hf, hu] at h; simp [h]

theorem visit_group_some (w : World) (cfg : Config) (st : stat_t) (s t : State)
    (h : visit_group w cfg st s = some t) :
    t = print s (if cfg.print_grpid = true then name_field ((w.getgrgid st.st_gid).getD []) else []) := by
  unfold visit_group at h
  cases hf : cfg.print_grpid with
  | false => simp [hf] at h; simp [h, print_nil]
  | true =>
    cases hu : w.getgrgid st.st_gid with
    | none => simp [hf, hu] at h
    | some name => simp [hf, hu] at h; simp [h]

theorem visit_ok (w : World) (cfg : Config) (path : Str) (s : State)
    (h : (visit w cfg path s).1 = 0) :
    (visit w cfg path s).2 = print (note s (Event.visited path)) (entry_line w cfg path) := by
  unfold visit at h ⊢
  simp only at h ⊢
  cases ho : visit_owner w cfg (visit_stat w cfg path)
      (visit_head w cfg path (visit_stat w cfg path) (note s (Event.visited path))) with
  | none => rw [ho] at h; simp at h
  | some s5 =>
    rw [ho] at h
    simp only at h ⊢
    cases hg : visit_group w cfg (visit_stat w cfg path) s5 with
    | none => rw [hg] at h; simp at h
    | some s6 =>
      simp only
      rw [visit_tail_eq, visit_group_some w cfg _ s5 s6 hg, visit_owner_some w cfg _ _ s5 ho,
        visit_head_eq]
      simp only [print_print, entry_line, code_line, unspaced_type_field, spaced_tail_fields,
        List.append_assoc]

/-! ### Size unit -/

theorem get_size_unit_loop_index_le :
    ∀ (fuel size index : Nat), index ≤ (get_size_unit_loop fuel size index).2 := by
  intro fuel
  induction fuel with
  | zero => intro size index; exact Nat.le_refl _
  | succ k ih =>
    intro size index
    unfold get_size_unit_loop
    split
    · exact Nat.le_trans (Nat.le_succ index) (ih (size / 1024) (index + 1))
    · exact Nat.le_refl _

theorem get_size_unit_index_zero (size : Nat) : get_size_unit_index size = 0 ↔ size ≤ 1024 := by
  unfold get_size_unit_index get_size_unit_loop
  by_cases h : size > 1024
  · have := get_size_unit_loop_index_le 5 (size / 1024) 1
    simp only [h, true_and, Nat.zero_lt_succ, if_true, Nat.zero_add]
    constructor
    · intro h0; omega
    · intro h0; omega
  · simp only [h, false_and, if_false]
    constructor
    · intro _; omega
    · intro _; trivial

theorem get_size_unit_K (size : Nat) (h1 : 1025 ≤ size) (h2 : size ≤ 1048576) :
    get_size_unit_index size = 1 := by
  have hd : ¬ size / 1024 > 1024 := by omega
  have hs : size > 1024 := by omega
  simp [get_size_unit_index, get_size_unit_loop, hs, hd]

/-- C5: size-unit selection. For every size from 0 to 1024 inclusive
`get_size_unit` returns `b`, for every size from 1025 to 1048576 inclusive it
returns `K`, and no division happens (the index stays 0) exactly when the
size is at most 1024, the boundary 1024 staying in the lower unit. -/
theorem C5_size_unit_selection :
    (∀ size : Nat, size ≤ 1024 → get_size_unit size = 'b') ∧
    (∀ size : Nat, 1025 ≤ size → size ≤ 1048576 → get_size_unit size = 'K') ∧
    (∀ size : Nat, get_size_unit_index size = 0 ↔ size ≤ 1024) := by
  refine ⟨?_, ?_, get_size_unit_index_zero⟩
  · intro size h
    unfold get_size_unit
    rw [(get_size_unit_index_zero size).2 h]
    rfl
  · intro size h1 h2
    unfold get_size_unit
    rw [get_size_unit_K size h1 h2]
    rfl

/-- C5 witness: the boundary values 0, 1024, 1025 and 1048576. -/
theorem C5_size_unit_selection_witness :
    get_size_unit 0 = 'b' ∧ get_size_unit 1024 = 'b' ∧
    get_size_unit 1025 = 'K' ∧ get_size_unit 1048576 = 'K' :=
  ⟨C5_size_unit_selection.1 0 (by decide), C5_size_unit_selection.1 1024 (by decide),
   C5_size_unit_selection.2.1 1025 (by decide) (by decide),
   C5_size_unit_selection.2.1 1048576 (by decide) (by decide)⟩

/-! ### Classifier -/

theorem is_directory_some (w : World) (cfg : Config) (path : Str) (s : State) (st : stat_t)
    (h : probe w cfg path = some st) :
    is_directory w cfg path s =
      (if S_ISLNK st.st_mode = true then (if cfg.follow_symlinks = true then 1 else 0)
       else if S_ISDIR st.st_mode = true then 1 else 0, s) := by
  unfold is_directory
  rw [h]
  cases hl : S_ISLNK st.st_mode <;> cases hd : S_ISDIR st.st_mode <;> simp [hl, hd]

theorem is_directory_none (w : World) (cfg : Config) (path : Str) (s : State)
    (h : probe w cfg path = none) : is_directory w cfg path s = (-1, perror s) := by
  unfold is_directory
  rw [h]

theorem is_directory_state (w : World) (cfg : Config) (path : Str) (s : State) :
    (is_directory w cfg path s).2 = s ∨ (is_directory w cfg path s).2 = perror s := by
  cases h : probe w cfg path with
  | none => rw [is_directory_none w cfg path s h]; exact Or.inr rfl
  | some st =>
    rw [is_directory_some w cfg path s st h]
    exact Or.inl rfl

theorem not_dir_of_other_type (mode : Nat)
    (h : S_ISLNK mode = true ∨ S_ISREG mode = true ∨ S_ISSOCK mode = true ∨ S_ISFIFO mode = true ∨
      S_ISBLK mode = true ∨ S_ISCHR mode = true) : S_ISDIR mode = false := by
  unfold S_ISLNK S_ISREG S_ISSOCK S_ISFIFO S_ISBLK S_ISCHR at h
  unfold S_ISDIR
  simp only [beq_iff_eq] at h
  rcases h with h | h | h | h | h | h <;> rw [h] <;> decide

theorem not_lnk_of_other_type (mode : Nat)
    (h : S_ISREG mode = true ∨ S_ISSOCK mode = true ∨ S_ISFIFO mode = true ∨
      S_ISBLK mode = true ∨ S_ISCHR mode = true) : S_ISLNK mode = false := by
  unfold S_ISREG S_ISSOCK S_ISFIFO S_ISBLK S_ISCHR at h
  unfold S_ISLNK
  simp only [beq_iff_eq] at h
  rcases h with h | h | h | h | h <;> rw [h] <;> decide

/-- C3: classifier rule. For every path whose probe succeeds and either value
of the follow flag, `is_directory` answers non-zero exactly when the probe
reports a directory, or reports a symbolic link while the follow flag is on;
with the flag off a symbolic link is never scheduled, and a regular file,
socket, fifo, block or character device is never scheduled. -/
theorem C3_classifier_rule (w : World) (cfg : Config) (path : Str) (s : State) (st : stat_t)
    (h : probe w cfg path = some st) :
    ((is_directory w cfg path s).1 ≠ 0 ↔
      (S_ISDIR st.st_mode = true ∨ (S_ISLNK st.st_mode = true ∧ cfg.follow_symlinks = true))) ∧
    (cfg.follow_symlinks = false → S_ISLNK st.st_mode = true → (is_directory w cfg path s).1 = 0) ∧
    (S_ISREG st.st_mode = true ∨ S_ISSOCK st.st_mode = true ∨ S_ISFIFO st.st_mode = true ∨
      S_ISBLK st.st_mode = true ∨ S_ISCHR st.st_mode = true → (is_directory w cfg path s).1 = 0) := by
  rw [is_directory_some w cfg path s st h]
  refine ⟨?_, ?_, ?_⟩
  · cases hl : S_ISLNK st.st_mode with
    | true =>
      have hd := not_dir_of_other_type st.st_mode (Or.inl hl)
      cases cfg.follow_symlinks <;> simp [hd]
    | false => cases S_ISDIR st.st_mode <;> simp
  · intro hf hl
    simp [hf, hl]
  · intro ht
    have hd := not_dir_of_other_type st.st_mode (Or.inr ht)
    have hl := not_lnk_of_other_type st.st_mode ht
    simp [hd, hl]

/-- C3 witness: in the sample tree with the follow flag off, the directory
`r` is scheduled and the regular file `r/a.txt` is not. -/
theorem C3_classifier_rule_witness :
    probe World.tree Config.off "r".toList = some directory ∧
    (is_directory World.tree Config.off "r".toList State.init).1 ≠ 0 ∧
    (is_directory World.tree Config.off "r/a.txt".toList State.init).1 = 0 :=
  ⟨by decide,
   (C3_classifier_rule World.tree Config.off "r".toList State.init directory (by decide)).1.2
     (Or.inl (by decide)),
   (C3_classifier_rule World.tree Config.off "r/a.txt".toList State.init (regular_file 0o644 5)
     (by decide)).2.2 (Or.inl (by decide))⟩

/-- C4 at the failing input: the only child of `d` cannot be probed, the
classifier returns -1 for it, and `traversal` enqueues it all the same. -/
theorem C4_failed_probe_enqueued :
    probe World.vanished_child Config.off "d/x".toList = none ∧
    (is_directory World.vanished_child Config.off "d/x".toList State.init).1 = -1 ∧
    enqueued_paths (traversal World.vanished_child Config.off "d".toList State.init).2.trace
      = ["d/x".toList] := by
  decide

/-! ### Line rendering -/

/-- C6 at the failing input: with size-in-units on, a file of 2000 bytes is
rendered with the raw byte count 2000 before the suffix `K`, not with the
scaled value 1 that the divisions of `get_size_unit` leave. -/
theorem C6_raw_size_before_suffix :
    get_size_unit (to_uint 2000) = 'K' ∧
    get_size_unit_scaled (to_uint 2000) = 1 ∧
    (visit World.one_file { Config.off with size_in_units := true } "a".toList State.init).2.out
      = "     2000K a\n".toList ∧
    spec_unit_size_field 2000 = "        1K ".toList ∧
    size_field { Config.off with size_in_units := true } 2000 ≠ spec_unit_size_field 2000 := by
  decide

/-- C7 (amended): line layout. For every flag configuration and every
snapshot whose owner and group lookups succeed, `visit` succeeds and prints
one line: the file-type character, when enabled, immediately followed by the
next field, then the permissions, link count, owner, group, size and
last-modified date, exactly those whose flag is enabled (the size always),
each followed by exactly one space, then the path and a newline. -/
theorem C7_line_layout (w : World) (cfg : Config) (path : Str) (s : State) (st : stat_t)
    (owner group : Str) (hst : probe w cfg path = some st)
    (ho : w.getpwuid st.st_uid = some owner) (hg : w.getgrgid st.st_gid = some group) :
    (visit w cfg path s).1 = 0 ∧
    (visit w cfg path s).2.out =
      s.out ++ code_line cfg st (w.uninit_p9 path) owner group (w.strftime st.st_mtime) path := by
  have hvs : visit_stat w cfg path = st := by simp [visit_stat, hst]
  have h0 : (visit w cfg path s).1 = 0 := by
    unfold visit
    simp only [hvs]
    have h1 : ∃ t, visit_owner w cfg st (visit_head w cfg path st (note s (Event.visited path))) = some t := by
      unfold visit_owner
      rw [ho]
      cases cfg.print_userid <;> simp
    obtain ⟨t, ht⟩ := h1
    have h2 : ∃ u, visit_group w cfg st t = some u := by
      unfold visit_group
      rw [hg]
      cases cfg.print_grpid <;> simp
    obtain ⟨u, hu⟩ := h2
    simp only [ht, hu]
  refine ⟨h0, ?_⟩
  rw [visit_ok w cfg path s h0]
  simp [print, note, entry_line, hvs, ho, hg]

/-- C7 witness: a regular file of the sample tree with every field enabled. -/
theorem C7_line_layout_witness :
    probe World.tree ⟨false, true, true, true, true, true, false, true⟩ "r/a.txt".toList
      = some (regular_file 0o644 5) ∧
    World.tree.getpwuid (regular_file 0o644 5).st_uid = some "user".toList ∧
    World.tree.getgrgid (regular_file 0o644 5).st_gid = some "staff".toList ∧
    (visit World.tree ⟨false, true, true, true, true, true, false, true⟩ "r/a.txt".toList State.init).1 = 0 ∧
    (visit World.tree ⟨false, true, true, true, true, true, false, true⟩ "r/a.txt".toList State.init).2.out =
      State.init.out ++ code_line ⟨false, true, true, true, true, true, false, true⟩ (regular_file 0o644 5)
        (World.tree.uninit_p9 "r/a.txt".toList) "user".toList "staff".toList
        (World.tree.strftime (regular_file 0o644 5).st_mtime) "r/a.txt".toList :=
  ⟨by decide, by decide, by decide,
   C7_line_layout World.tree ⟨false, true, true, true, true, true, false, true⟩ "r/a.txt".toList
     State.init (regular_file 0o644 5) "user".toList "staff".toList (by decide) (by decide) (by decide)⟩

/-- C7 counterexample: with only the file-type flag on, the line of a regular
file of 5 bytes has no space between the type character and the size field,
so it is not the line in which every enabled field is followed by a space. -/
theorem C7_counterexample :
    probe World.tree { Config.off with print_filetype := true } "r/a.txt".toList
      = some (regular_file 0o644 5) ∧
    World.tree.getpwuid (regular_file 0o644 5).st_uid = some "user".toList ∧
    World.tree.getgrgid (regular_file 0o644 5).st_gid = some "staff".toList ∧
    (visit World.tree { Config.off with print_filetype := true } "r/a.txt".toList State.init).2.out
      = "-         5 r/a.txt\n".toList ∧
    spec_line { Config.off with print_filetype := true } (regular_file 0o644 5)
        (World.tree.uninit_p9 "r/a.txt".toList) "user".toList "staff".toList
        (World.tree.strftime 0) "r/a.txt".toList
      = "-          5 r/a.txt\n".toList ∧
    (visit World.tree { Config.off with print_filetype := true } "r/a.txt".toList State.init).2.out
      ≠ spec_line { Config.off with print_filetype := true } (regular_file 0o644 5)
          (World.tree.uninit_p9 "r/a.txt".toList) "user".toList "staff".toList
          (World.tree.strftime 0) "r/a.txt".toList := by
  decide

/-- C8 at the failing input: for mode 0750, when the byte `p[9]` that
`visit` never writes holds `X`, the permission field printed is ten
characters, `rwxr-x---X`, before its space. -/
theorem C8_permission_field_ten_chars :
    perm_field (regular_file 0o750 2000).st_mode 'X' = "rwxr-x---X ".toList ∧
    spec_perm_string (regular_file 0o750 2000).st_mode = "rwxr-x---".toList ∧
    (visit World.one_file { Config.off with print_perms := true } "a".toList State.init).2.out
      = "rwxr-x---X       2000 a\n".toList := by
  decide

/-- C9 at the failing input: with the file-type and owner flags on and an
owner unknown to the user database, `visit` returns -1 and leaves the
file-type character on standard output without path or newline. -/
theorem C9_truncated_line_left :
    World.one_file.getpwuid (regular_file 0o750 2000).st_uid = none ∧
    (visit World.one_file { Config.off with print_filetype := true, print_userid := true }
      "a".toList State.init).1 = -1 ∧
    (visit World.one_file { Config.off with print_filetype := true, print_userid := true }
      "a".toList State.init).2.out = ['-'] := by
  decide

/-! ### Program -/

theorem main_rejects_non_directory (w : World) (cfg : Config) (arg : Str) (fuel : Nat)
    (h : (is_directory w cfg arg State.init).1 = 0) :
    ∃ s, main w cfg (some arg) fuel = some (EXIT_FAILURE, s) ∧ s.out = [] ∧ s.trace = [] ∧
      s.queue = ⟨none, none, 0⟩ := by
  unfold main parse_arguments
  simp only [h, if_true]
  refine ⟨_, rfl, ?_, ?_, ?_⟩
  all_goals
    rcases is_directory_state w cfg arg State.init with h2 | h2 <;> rw [h2] <;> rfl

/-- C10 at the failing input: for a root argument whose probe fails, `main`
does not stop: the root is enqueued, visited and printed, dequeued, its
listing fails, and the exit status is 0. -/
theorem C10_invalid_root_traversed :
    probe World.bare Config.off "x".toList = none ∧
    (main World.bare Config.off (some "x".toList) 1).map (fun r => (r.1, r.2.out, r.2.trace)) =
      some (0, "         0 x\n".toList,
        [Event.enqueued "x".toList, Event.visited "x".toList, Event.dequeued "x".toList,
         Event.list_failed "x".toList]) := by
  decide

/-! ### Traverser -/

theorem holds_congr (s t : State) (L : List Str) (hh : t.heap = s.heap) (hq : t.queue = s.queue)
    (hb : t.brk = s.brk) (h : holds s L) : holds t L := by
  unfold holds at *
  rw [hh, hq, hb]
  exact h

theorem enqueued_paths_snoc (tr : List Event) (e : Event) :
    enqueued_paths (tr ++ [e]) = enqueued_paths tr ++ (e.enq).toList := by
  unfold enqueued_paths
  rw [List.filterMap_append]
  cases h : e.enq <;> simp [List.filterMap_cons, h]

theorem dequeued_paths_snoc (tr : List Event) (e : Event) :
    dequeued_paths (tr ++ [e]) = dequeued_paths tr ++ (e.deq).toList := by
  unfold dequeued_paths
  rw [List.filterMap_append]
  cases h : e.deq <;> simp [List.filterMap_cons, h]

theorem visited_paths_snoc (tr : List Event) (e : Event) :
    visited_paths (tr ++ [e]) = visited_paths tr ++ (e.vis).toList := by
  unfold visited_paths
  rw [List.filterMap_append]
  cases h : e.vis <;> simp [List.filterMap_cons, h]

/-! The step lemmas below describe each operation by what it does to the
queue contents, to the enqueued, dequeued and visited paths of the trace, and
to standard output. -/

theorem get_size_unit_index_le (size : Nat) (h : size < 4294967296) :
    get_size_unit_index size ≤ 3 := by
  simp only [get_size_unit_index, get_size_unit_loop]
  split_ifs <;> simp <;> omega

theorem get_size_unit_named (size : Nat) (h : size < 4294967296) :
    get_size_unit size ∈ ['b', 'K', 'M', 'G'] ∧
    unit.get? (get_size_unit_index size) = some (get_size_unit size) := by
  have h3 := get_size_unit_index_le size h
  unfold get_size_unit
  generalize get_size_unit_index size = i at h3
  interval_cases i <;> decide

theorem dec_length_le (n : Nat) (h : n < 4294967296) : (dec n).length ≤ 10 := by
  unfold dec Nat.toDigits
  exact Nat.toDigitsCore_length 10 (by decide) (n + 1) n 10 (by omega) (by decide)

theorem to_uint_lt (n : Nat) : to_uint n < 4294967296 := by
  unfold to_uint
  omega

theorem rjust_length (width : Nat) (t : Str) (h : t.length ≤ width) :
    (rjust width t).length = width := by
  unfold rjust
  simp
  omega

/-- C15: fixed-width byte count. With size-in-units disabled, for every file
size the size field `visit` prints is the decimal representation of the size
(as converted to `unsigned int` by `%u`, which leaves a size below 2^32
unchanged), right-justified with spaces in exactly 10 characters, followed by
exactly one space. -/
theorem C15_fixed_width_byte_count (w : World) (cfg : Config) (path : Str) (st : stat_t)
    (s : State) (hu : cfg.size_in_units = false) :
    (visit_tail w cfg path st s).out =
      s.out ++ (rjust 10 (dec (to_uint st.st_size)) ++ [' ']) ++
        ((if cfg.print_last_mtime = true then w.strftime st.st_mtime ++ [' '] else []) ++
          (path ++ ['\n'])) ∧
    size_field cfg st.st_size = rjust 10 (dec (to_uint st.st_size)) ++ [' '] ∧
    (rjust 10 (dec (to_uint st.st_size))).length = 10 ∧
    (∃ n, rjust 10 (dec (to_uint st.st_size)) = List.replicate n ' ' ++ dec (to_uint st.st_size)) ∧
    String.mk (dec (to_uint st.st_size)) = Nat.repr (to_uint st.st_size) ∧
    (st.st_size < 4294967296 → to_uint st.st_size = st.st_size) := by
  have hf : size_field cfg st.st_size = rjust 10 (dec (to_uint st.st_size)) ++ [' '] := by
    simp [size_field, hu]
  refine ⟨?_, hf, rjust_length 10 _ (dec_length_le _ (to_uint_lt _)), ⟨_, rfl⟩, rfl, ?_⟩
  · rw [visit_tail_eq, hf]
    simp [print]
  · intro h
    exact Nat.mod_eq_of_lt h

/-- C15 witness: sizes 5, 2000 and 2^32 + 7 with every flag off. -/
theorem C15_fixed_width_byte_count_witness :
    size_field Config.off 5 = "         5 ".toList ∧
    size_field Config.off 2000 = "      2000 ".toList ∧
    size_field Config.off 4294967303 = "         7 ".toList :=
  ⟨(C15_fixed_width_byte_count World.bare Config.off [] (regular_file 0o644 5) State.init rfl).2.1,
   (C15_fixed_width_byte_count World.bare Config.off [] (regular_file 0o644 2000) State.init rfl).2.1,
   (C15_fixed_width_byte_count World.bare Config.off [] (regular_file 0o644 4294967303)
     State.init rfl).2.1⟩

/-- C16 at the failing input: with size-in-units on, a file of 1025 * 2^30
bytes is rendered with the suffix `M`, because `get_size_unit` receives the
size converted to `unsigned int`; for no size at all is the suffix `?`. -/
theorem C16_unknown_suffix_unreachable :
    to_uint (1025 * 2 ^ 30) = 2 ^ 30 ∧
    get_size_unit (to_uint (1025 * 2 ^ 30)) = 'M' ∧
    size_field { Config.off with size_in_units := true } (1025 * 2 ^ 30) = "1073741824M ".toList ∧
    (∀ size : Nat, get_size_unit (to_uint size) ≠ '?') := by
  refine ⟨by decide, by decide, by decide, ?_⟩
  intro size h
  have hm := (get_size_unit_named (to_uint size) (to_uint_lt size)).1
  rw [h] at hm
  exact absurd hm (by decide)

/-- C18: in-bounds unit lookup. For every 32-bit unsigned size the loop of
`get_size_unit` makes at most 3 divisions, so `unit[index]` is read inside the
array and is one of `b`, `K`, `M`, `G`; the guard `index < sizeof(unit)` alone
does not ensure it: for a wider size the index reaches 6, the length of the
array, where there is no element. -/
theorem C18_unit_index_in_bounds :
    (∀ size : Nat, size < 4294967296 →
      get_size_unit_index size ≤ 3 ∧
      unit.get? (get_size_unit_index size) = some (get_size_unit size) ∧
      get_size_unit size ∈ ['b', 'K', 'M', 'G']) ∧
    unit.length = 6 ∧
    (get_size_unit_loop 6 (1025 * 1024 ^ 5) 0).2 = 6 ∧
    unit.get? 6 = none := by
  refine ⟨?_, by decide, by decide, by decide⟩
  intro size h
  exact ⟨get_size_unit_index_le size h, (get_size_unit_named size h).2, (get_size_unit_named size h).1⟩

/-- C18 witness: the largest 32-bit size selects `G` at index 3. -/
theorem C18_unit_index_in_bounds_witness :
    get_size_unit_index 4294967295 ≤ 3 ∧
    unit.get? (get_size_unit_index 4294967295) = some (get_size_unit 4294967295) ∧
    get_size_unit 4294967295 ∈ ['b', 'K', 'M', 'G'] :=
  C18_unit_index_in_bounds.1 4294967295 (by decide)

/-! ### Permission buffer -/

theorem ite_set_get_ne (c : Prop) [Decidable c] (p : List Char) (i j : Nat) (v : Char) (h : i ≠ j) :
    (if c then p.set i v else p).get? j = p.get? j := by
  split
  · simp [List.getElem?_set_ne h]
  · rfl

theorem perm_buf_get_9 (mode : Nat) (p9 : Char) : (perm_buf mode p9).get? 9 = some p9 := by
  unfold perm_buf
  simp only [ite_set_get_ne _ _ _ 9 _ (by decide : (8 : Nat) ≠ 9),
    ite_set_get_ne _ _ _ 9 _ (by decide : (7 : Nat) ≠ 9),
    ite_set_get_ne _ _ _ 9 _ (by decide : (6 : Nat) ≠ 9),
    ite_set_get_ne _ _ _ 9 _ (by decide : (5 : Nat) ≠ 9),
    ite_set_get_ne _ _ _ 9 _ (by decide : (4 : Nat) ≠ 9),
    ite_set_get_ne _ _ _ 9 _ (by decide : (3 : Nat) ≠ 9),
    ite_set_get_ne _ _ _ 9 _ (by decide : (2 : Nat) ≠ 9),
    ite_set_get_ne _ _ _ 9 _ (by decide : (1 : Nat) ≠ 9),
    ite_set_get_ne _ _ _ 9 _ (by decide : (0 : Nat) ≠ 9)]
  rfl

/-- C19 at the failing input: for every mode, `visit` writes index 10 of its
10-element buffer and never writes index 9, so when `p` is printed `p[9]`
still holds the byte it had on entry; with mode 0750 and the stale byte `X`
the string printed is `rwxr-x---X`. -/
theorem C19_terminator_out_of_bounds :
    (∀ mode : Nat, 10 ∈ perm_writes mode ∧ 9 ∉ perm_writes mode) ∧
    (∀ (mode : Nat) (p9 : Char), (perm_buf mode p9).get? 9 = some p9) ∧
    perm_writes 0o750 = [0, 1, 2, 3, 4, 5, 6, 7, 8, 10, 0, 1, 2, 3, 5] ∧
    fmt_s (perm_buf 0o750 'X') = "rwxr-x---X".toList := by
  refine ⟨?_, perm_buf_get_9, by decide, by decide⟩
  intro mode
  constructor
  · simp [perm_writes]
  · unfold perm_writes
    simp only [List.mem_append, not_or]
    refine ⟨⟨⟨⟨⟨⟨⟨⟨⟨⟨by decide, by decide⟩, ?_⟩, ?_⟩, ?_⟩, ?_⟩, ?_⟩, ?_⟩, ?_⟩, ?_⟩, ?_⟩ <;>
      split <;> simp

/-! ### Queue representation -/

theorem holds_apply_op (w : World) (s : State) (op : QueueOp) (h : ∃ L, holds s L) :
    ∃ L, holds (apply_op w s op) L := by
  obtain ⟨L, hL⟩ := h
  cases op with
  | enq str =>
    cases hok : w.calloc_ok s.brk with
    | true => exact ⟨L ++ [str], (enqueue_ok_holds w str s L hL hok).2⟩
    | false => exact ⟨L, (enqueue_fail_holds w str s L hL hok).2⟩
  | deq =>
    cases L with
    | nil => exact ⟨[], by show holds (dequeue s).2 []; rw [dequeue_nil s hL]; exact hL⟩
    | cons x L => exact ⟨L, (dequeue_holds s x L hL).2⟩

theorem holds_apply_ops (w : World) :
    ∀ (ops : List QueueOp) (s : State), (∃ L, holds s L) → ∃ L, holds (apply_ops w ops s) L := by
  intro ops
  induction ops with
  | nil => intro s h; exact h
  | cons op ops ih =>
    intro s h
    exact ih (apply_op w s op) (holds_apply_op w s op h)

theorem linked_last (heap : Nat → Option node) :
    ∀ (ns : List (Nat × Str)) (p : Option Nat) (b : Nat), linked heap p ns →
      (ns.map Prod.fst).getLast? = some b → ∃ x, heap b = some ⟨x, none⟩ := by
  intro ns
  induction ns with
  | nil => intro p b _ hb; simp at hb
  | cons hd rest ih =>
    intro p b h hb
    obtain ⟨a, x⟩ := hd
    obtain ⟨_, nx, ha, hrest⟩ := h
    cases rest with
    | nil =>
      have hnx : nx = none := hrest
      simp only [List.map_cons, List.map_nil, List.getLast?_singleton, Option.some.injEq] at hb
      subst hb hnx
      exact ⟨x, ha⟩
    | cons hd2 rest2 =>
      exact ih nx b hrest (by simpa [List.getLast?_cons_cons] using hb)

/-- C20: queue representation invariant. Starting from the initial queue,
after every sequence of `enqueue` and `dequeue` calls (whichever allocations
are refused), the nodes reachable from `front` form a chain ending in NULL
whose length is `num_nodes`; `num_nodes` is not negative; `front` is NULL
exactly when `back` is NULL exactly when `num_nodes` is 0; and when the queue
is not empty `back` is the last node of the chain and its `next` is NULL. -/
theorem C20_queue_representation (w : World) (ops : List QueueOp) :
    ∃ ns : List (Nat × Str),
      linked (apply_ops w ops State.init).heap (apply_ops w ops State.init).queue.front ns ∧
      (apply_ops w ops State.init).queue.num_nodes = ns.length ∧
      0 ≤ (apply_ops w ops State.init).queue.num_nodes ∧
      ((apply_ops w ops State.init).queue.front = none ↔
        (apply_ops w ops State.init).queue.back = none) ∧
      ((apply_ops w ops State.init).queue.back = none ↔
        (apply_ops w ops State.init).queue.num_nodes = 0) ∧
      (∀ b, (apply_ops w ops State.init).queue.back = some b →
        (ns.map Prod.fst).getLast? = some b ∧
        ∃ x, (apply_ops w ops State.init).heap b = some ⟨x, none⟩) := by
  obtain ⟨L, ns, _, hl, _, _, hback, hnum⟩ := holds_apply_ops w ops State.init ⟨[], holds_init⟩
  refine ⟨ns, hl, hnum, by rw [hnum]; exact Int.natCast_nonneg _, ?_, ?_, ?_⟩
  · cases ns with
    | nil =>
      have hf : (apply_ops w ops State.init).queue.front = none := hl
      simp [hf, hback]
    | cons hd rest =>
      have hf : (apply_ops w ops State.init).queue.front = some hd.1 := hl.1
      have hb : ∃ b, (List.map Prod.fst (hd :: rest)).getLast? = some b :=
        ⟨_, List.getLast?_eq_getLast _ (by simp)⟩
      obtain ⟨b, hb⟩ := hb
      simp [hf, hback, hb]
  · rw [hback, hnum]
    cases ns with
    | nil => simp
    | cons hd rest =>
      have hb : ∃ b, (List.map Prod.fst (hd :: rest)).getLast? = some b :=
        ⟨_, List.getLast?_eq_getLast _ (by simp)⟩
      obtain ⟨b, hb⟩ := hb
      rw [hb]
      simp only [List.length_cons]
      constructor
      · intro h; exact absurd h (by simp)
      · intro h; omega
  · intro b hb
    rw [hback] at hb
    exact ⟨hb, linked_last _ ns _ b hl hb⟩

/-! ### Traversal without assumptions on the visits -/

theorem opened_paths_snoc (tr : List Event) (e : Event) :
    opened_paths (tr ++ [e]) = opened_paths tr ++ (e.opn).toList := by
  unfold opened_paths
  rw [List.filterMap_append]
  cases h : e.opn <;> simp [List.filterMap_cons, h]

theorem visit_frame (w : World) (cfg : Config) (p : Str) (s : State) :
    (visit w cfg p s).2.heap = s.heap ∧ (visit w cfg p s).2.brk = s.brk ∧
    (visit w cfg p s).2.queue = s.queue ∧
    (visit w cfg p s).2.trace = s.trace ++ [Event.visited p] ∧
    (visit w cfg p s).2.out = s.out ++ visit_text w cfg p := by
  unfold visit_text visit visit_owner visit_group
  simp only [visit_head_eq]
  cases hf : cfg.print_userid <;> cases hu : w.getpwuid (visit_stat w cfg p).st_uid <;>
  cases hg : cfg.print_grpid <;> cases hv : w.getgrgid (visit_stat w cfg p).st_gid <;>
  simp [visit_tail_eq, print, note, perror, State.init]

theorem grows_trans (w : World) (cfg : Config) (s t u : State) (E1 V1 O1 E2 V2 O2 : List Str)
    (h1 : grows w cfg s t E1 V1 O1) (h2 : grows w cfg t u E2 V2 O2) :
    grows w cfg s u (E1 ++ E2) (V1 ++ V2) (O1 ++ O2) := by
  obtain ⟨a1, a2, a3, a4, a5, a6⟩ := h1
  obtain ⟨b1, b2, b3, b4, b5, b6⟩ := h2
  refine ⟨?_, ?_, ?_, ?_, ?_, ?_⟩
  · intro L h
    rw [← List.append_assoc]
    exact b1 _ (a1 L h)
  · rw [b2, a2, List.append_assoc]
  · rw [b3, a3]
  · rw [b4, a4, List.append_assoc]
  · rw [b5, a5, List.append_assoc]
  · rw [b6, a6]; simp

theorem grows_of_frame (w : World) (cfg : Config) (s t : State) (hh : t.heap = s.heap)
    (hq : t.queue = s.queue) (hb : t.brk = s.brk) (ht : t.trace = s.trace) (ho : t.out = s.out) :
    grows w cfg s t [] [] [] := by
  refine ⟨?_, ?_, ?_, ?_, ?_, ?_⟩
  · intro L h
    rw [List.append_nil]
    exact holds_congr s t L hh hq hb h
  all_goals simp [ht, ho]

theorem visit_grows (w : World) (cfg : Config) (p : Str) (s : State) :
    grows w cfg s (visit w cfg p s).2 [] [p] [] := by
  obtain ⟨h1, h2, h3, h4, h5⟩ := visit_frame w cfg p s
  refine ⟨?_, ?_, ?_, ?_, ?_, ?_⟩
  · intro L h
    rw [List.append_nil]
    exact holds_congr s _ L h1 h3 h2 h
  · rw [h4, enqueued_paths_snoc]; simp [Event.enq]
  · rw [h4, dequeued_paths_snoc]; simp [Event.deq]
  · rw [h4, visited_paths_snoc]; simp [Event.vis]
  · rw [h4, opened_paths_snoc]; simp [Event.opn]
  · rw [h5]; simp

theorem is_directory_fst (w : World) (cfg : Config) (p : Str) (s : State) :
    (is_directory w cfg p s).1 = classify w cfg p := by
  unfold classify
  cases h : probe w cfg p with
  | none => rw [is_directory_none w cfg p s h, is_directory_none w cfg p State.init h]
  | some st => rw [is_directory_some w cfg p s st h, is_directory_some w cfg p State.init st h]

theorem is_directory_grows (w : World) (cfg : Config) (p : Str) (s : State) :
    grows w cfg s (is_directory w cfg p s).2 [] [] [] := by
  rcases is_directory_state w cfg p s with h | h <;> rw [h]
  · exact grows_of_frame w cfg s s rfl rfl rfl rfl rfl
  · exact grows_of_frame w cfg s (perror s) rfl rfl rfl rfl rfl

theorem enqueue_grows (w : World) (cfg : Config) (p : Str) (s : State) :
    ∃ E, grows w cfg s (enqueue w p s).2 E [] [] ∧ E.Sublist [p] ∧
      ((∀ i, w.calloc_ok i = true) → E = [p]) := by
  cases hok : w.calloc_ok s.brk with
  | true =>
    refine ⟨[p], ⟨?_, ?_, ?_, ?_, ?_, ?_⟩, List.Sublist.refl _, fun _ => rfl⟩
    · intro L h; exact (enqueue_ok_holds w p s L h hok).2
    · rw [enqueue_ok_trace w p s hok, enqueued_paths_snoc]; simp [Event.enq]
    · rw [enqueue_ok_trace w p s hok, dequeued_paths_snoc]; simp [Event.deq]
    · rw [enqueue_ok_trace w p s hok, visited_paths_snoc]; simp [Event.vis]
    · rw [enqueue_ok_trace w p s hok, opened_paths_snoc]; simp [Event.opn]
    · rw [enqueue_out]; simp
  | false =>
    refine ⟨[], ⟨?_, ?_, ?_, ?_, ?_, ?_⟩, List.nil_sublist _, ?_⟩
    · intro L h; rw [List.append_nil]; exact (enqueue_fail_holds w p s L h hok).2
    · rw [enqueue_fail w p s hok]
      show enqueued_paths (s.trace ++ [Event.enqueue_failed p]) = _
      rw [enqueued_paths_snoc]; simp [Event.enq]
    · rw [enqueue_fail w p s hok]
      show dequeued_paths (s.trace ++ [Event.enqueue_failed p]) = _
      rw [dequeued_paths_snoc]; simp [Event.deq]
    · rw [enqueue_fail w p s hok]
      show visited_paths (s.trace ++ [Event.enqueue_failed p]) = _
      rw [visited_paths_snoc]; simp [Event.vis]
    · rw [enqueue_fail w p s hok]
      show opened_paths (s.trace ++ [Event.enqueue_failed p]) = _
      rw [opened_paths_snoc]; simp [Event.opn]
    · rw [enqueue_out]; simp
    · intro hall
      rw [hall s.brk] at hok
      exact absurd hok (by simp)

theorem traversal_entry_grows (w : World) (cfg : Config) (dirname d : Str) (s : State) :
    ∃ E, grows w cfg s (traversal_entry w cfg dirname s d) E
        (if is_dot d = true then [] else [child_path dirname d]) [] ∧
      E.Sublist ((if is_dot d = true then [] else [child_path dirname d]).filter (approved w cfg)) ∧
      ((∀ i, w.calloc_ok i = true) →
        E = (if is_dot d = true then [] else [child_path dirname d]).filter (approved w cfg)) := by
  unfold traversal_entry
  by_cases hd : d = ['.'] ∨ d = ['.', '.']
  · have hdot : is_dot d = true := by simp [is_dot, hd]
    rw [if_pos hd]
    simp only [hdot, if_true, List.filter_nil]
    exact ⟨[], grows_of_frame w cfg s s rfl rfl rfl rfl rfl, List.Sublist.refl _, fun _ => rfl⟩
  · have hdot : is_dot d = false := by simp [is_dot, hd]
    rw [if_neg hd]
    simp only [hdot]
    have g1 := is_directory_grows w cfg (child_path dirname d) s
    have hc := is_directory_fst w cfg (child_path dirname d) s
    by_cases hr : (is_directory w cfg (child_path dirname d) s).1 ≠ 0
    · have hap : approved w cfg (child_path dirname d) = true := by
        unfold approved; rw [← hc]; simpa using hr
      rw [if_pos hr]
      obtain ⟨E, g2, hsub, hall⟩ :=
        enqueue_grows w cfg (child_path dirname d) (is_directory w cfg (child_path dirname d) s).2
      have g3 := visit_grows w cfg (child_path dirname d)
        (enqueue w (child_path dirname d) (is_directory w cfg (child_path dirname d) s).2).2
      have g := grows_trans w cfg _ _ _ _ _ _ _ _ _ (grows_trans w cfg _ _ _ _ _ _ _ _ _ g1 g2) g3
      simp only [List.nil_append, List.append_nil] at g
      refine ⟨E, g, ?_, ?_⟩
      · simpa [List.filter_cons, hap] using hsub
      · intro ha; simpa [List.filter_cons, hap] using hall ha
    · have hap : approved w cfg (child_path dirname d) = false := by
        unfold approved; rw [← hc]; simpa using hr
      rw [if_neg hr]
      have g3 := visit_grows w cfg (child_path dirname d)
        (is_directory w cfg (child_path dirname d) s).2
      have g := grows_trans w cfg _ _ _ _ _ _ _ _ _ g1 g3
      simp only [List.nil_append, List.append_nil] at g
      refine ⟨[], g, ?_, ?_⟩
      · simp
      · intro _; simp [List.filter_cons, hap]

theorem traversal_fold_grows (w : World) (cfg : Config) (dirname : Str) :
    ∀ (ents : List Str) (s : State),
      ∃ E, grows w cfg s (ents.foldl (traversal_entry w cfg dirname) s) E
          ((ents.filter (fun d => !is_dot d)).map (child_path dirname)) [] ∧
        E.Sublist (((ents.filter (fun d => !is_dot d)).map (child_path dirname)).filter
          (approved w cfg)) ∧
        ((∀ i, w.calloc_ok i = true) →
          E = ((ents.filter (fun d => !is_dot d)).map (child_path dirname)).filter
            (approved w cfg)) := by
  intro ents
  induction ents with
  | nil =>
    intro s
    exact ⟨[], grows_of_frame w cfg s s rfl rfl rfl rfl rfl, List.Sublist.refl _, fun _ => rfl⟩
  | cons d ents ih =>
    intro s
    obtain ⟨E1, g1, s1, a1⟩ := traversal_entry_grows w cfg dirname d s
    obtain ⟨E2, g2, s2, a2⟩ := ih (traversal_entry w cfg dirname s d)
    have g := grows_trans w cfg _ _ _ _ _ _ _ _ _ g1 g2
    have hV : (if is_dot d = true then [] else [child_path dirname d]) ++
        (ents.filter (fun d => !is_dot d)).map (child_path dirname) =
        ((d :: ents).filter (fun d => !is_dot d)).map (child_path dirname) := by
      cases hdot : is_dot d <;> simp [List.filter_cons, hdot]
    rw [hV] at g
    simp only [List.append_nil] at g
    refine ⟨E1 ++ E2, g, ?_, ?_⟩
    · rw [← hV, List.filter_append]
      exact List.Sublist.append s1 s2
    · intro ha
      rw [← hV, List.filter_append, a1 ha, a2 ha]

theorem traversal_grows (w : World) (cfg : Config) (dirname : Str) (s : State) :
    ∃ E, grows w cfg s (traversal w cfg dirname s).2 E (children w dirname) [dirname] ∧
      E.Sublist ((children w dirname).filter (approved w cfg)) ∧
      ((∀ i, w.calloc_ok i = true) → E = (children w dirname).filter (approved w cfg)) := by
  unfold traversal children
  cases ho : w.opendir dirname with
  | none =>
    refine ⟨[], ⟨?_, ?_, ?_, ?_, ?_, ?_⟩, List.Sublist.refl _, fun _ => rfl⟩
    · intro L h; rw [List.append_nil]; exact holds_congr s _ L rfl rfl rfl h
    · show enqueued_paths (s.trace ++ [Event.list_failed dirname]) = _
      rw [enqueued_paths_snoc]; simp [Event.enq]
    · show dequeued_paths (s.trace ++ [Event.list_failed dirname]) = _
      rw [dequeued_paths_snoc]; simp [Event.deq]
    · show visited_paths (s.trace ++ [Event.list_failed dirname]) = _
      rw [visited_paths_snoc]; simp [Event.vis]
    · show opened_paths (s.trace ++ [Event.list_failed dirname]) = _
      rw [opened_paths_snoc]; simp [Event.opn]
    · show s.out = _
      simp
  | some ents =>
    have g0 : grows w cfg s (note s (Event.listed dirname)) [] [] [dirname] := by
      refine ⟨?_, ?_, ?_, ?_, ?_, ?_⟩
      · intro L h; rw [List.append_nil]; exact holds_congr s _ L rfl rfl rfl h
      · show enqueued_paths (s.trace ++ [Event.listed dirname]) = _
        rw [enqueued_paths_snoc]; simp [Event.enq]
      · show dequeued_paths (s.trace ++ [Event.listed dirname]) = _
        rw [dequeued_paths_snoc]; simp [Event.deq]
      · show visited_paths (s.trace ++ [Event.listed dirname]) = _
        rw [visited_paths_snoc]; simp [Event.vis]
      · show opened_paths (s.trace ++ [Event.listed dirname]) = _
        rw [opened_paths_snoc]; simp [Event.opn]
      · show s.out = _
        simp
    obtain ⟨E, g1, hs, ha⟩ := traversal_fold_grows w cfg dirname ents (note s (Event.listed dirname))
    have g := grows_trans w cfg _ _ _ _ _ _ _ _ _ g0 g1
    simp only [List.nil_append, List.append_nil] at g
    exact ⟨E, g, hs, ha⟩

theorem breadthfirst_body_general (w : World) (cfg : Config) (s : State) (x : Str) (L : List Str)
    (h : holds s (x :: L)) :
    ∃ E, holds (breadthfirst_body w cfg s) (L ++ E) ∧
      enqueued_paths (breadthfirst_body w cfg s).trace = enqueued_paths s.trace ++ E ∧
      dequeued_paths (breadthfirst_body w cfg s).trace = dequeued_paths s.trace ++ [x] ∧
      visited_paths (breadthfirst_body w cfg s).trace = visited_paths s.trace ++ children w x ∧
      opened_paths (breadthfirst_body w cfg s).trace = opened_paths s.trace ++ [x] ∧
      (breadthfirst_body w cfg s).out = s.out ++ ((children w x).map (visit_text w cfg)).flatten ∧
      E.Sublist ((children w x).filter (approved w cfg)) ∧
      ((∀ i, w.calloc_ok i = true) → E = (children w x).filter (approved w cfg)) := by
  obtain ⟨qn, n, _, _, _, hd⟩ := dequeue_cons s x L h
  have hh := (dequeue_holds s x L h).2
  unfold breadthfirst_body
  rw [hd] at hh ⊢
  dsimp only at hh ⊢
  obtain ⟨E, ⟨b1, b2, b3, b4, b5, b6⟩, hs, ha⟩ := traversal_grows w cfg x
    (note { s with heap := upd s.heap qn none,
                   queue := { front := n.next,
                              back := if n.next = none then none else s.queue.back,
                              num_nodes := s.queue.num_nodes - 1 } } (Event.dequeued x))
  refine ⟨E, b1 L hh, ?_, ?_, ?_, ?_, ?_, hs, ha⟩
  · rw [b2]
    show enqueued_paths (s.trace ++ [Event.dequeued x]) ++ E = _
    rw [enqueued_paths_snoc]; simp [Event.enq]
  · rw [b3]
    show dequeued_paths (s.trace ++ [Event.dequeued x]) = _
    rw [dequeued_paths_snoc]; simp [Event.deq]
  · rw [b4]
    show visited_paths (s.trace ++ [Event.dequeued x]) ++ _ = _
    rw [visited_paths_snoc]; simp [Event.vis]
  · rw [b5]
    show opened_paths (s.trace ++ [Event.dequeued x]) ++ _ = _
    rw [opened_paths_snoc]; simp [Event.opn]
  · rw [b6]
    rfl

theorem bfs_inv_body (w : World) (cfg : Config) (root : Str) (s : State)
    (he : is_empty s.queue = false) (h : bfs_inv w cfg root s) :
    bfs_inv w cfg root (breadthfirst_body w cfg s) := by
  obtain ⟨L, h1, h2, h3, h4, h5, h6, h7⟩ := h
  cases L with
  | nil =>
    have := (holds_is_empty s [] h1).2 rfl
    rw [this] at he
    exact absurd he (by simp)
  | cons x L =>
    obtain ⟨E, b1, b2, b3, b4, b5, b6, b7, b8⟩ := breadthfirst_body_general w cfg s x L h1
    refine ⟨L ++ E, b1, ?_, ?_, ?_, ?_, ?_, ?_⟩
    · rw [b2, b3, h2]; simp
    · rw [b4, b3, h3]; simp
    · rw [b5, b3, h4]
    · rw [b6, b4, h5]; simp
    · rw [b2, b3, List.flatMap_append, List.filter_append, ← List.cons_append]
      refine List.Sublist.append h6 ?_
      simpa using b7
    · intro ha
      rw [b2, b3, List.flatMap_append, List.filter_append, ← List.cons_append, h7 ha, b8 ha]
      simp

theorem bfs_inv_loop (w : World) (cfg : Config) (root : Str) :
    ∀ (k : Nat) (s : State), bfs_inv w cfg root s → bfs_inv w cfg root (breadthfirst_loop w cfg k s) := by
  intro k
  induction k with
  | zero => intro s h; exact h
  | succ k ih =>
    intro s h
    unfold breadthfirst_loop
    cases he : is_empty s.queue with
    | true => simpa using h
    | false =>
      simp only [Bool.false_eq_true, if_false]
      exact ih _ (bfs_inv_body w cfg root s he h)

theorem bfs_inv_run (w : World) (cfg : Config) (root : Str) (k : Nat) :
    bfs_inv w cfg root (run w cfg root k) := by
  unfold run breadthfirst_steps
  apply bfs_inv_loop
  obtain ⟨E, ⟨e1, e2, e3, e4, e5, e6⟩, es, ea⟩ := enqueue_grows w cfg root State.init
  obtain ⟨v1, v2, v3, v4, v5, v6⟩ := visit_grows w cfg root (enqueue w root State.init).2
  have hd : dequeued_paths (visit w cfg root (enqueue w root State.init).2).2.trace = [] := by
    rw [v3, e3]; rfl
  have hv : visited_paths (visit w cfg root (enqueue w root State.init).2).2.trace = [root] := by
    rw [v4, e4]; rfl
  have hq : enqueued_paths (visit w cfg root (enqueue w root State.init).2).2.trace = E := by
    rw [v2, e2]; simp [State.init, enqueued_paths]
  refine ⟨E, ?_, ?_, ?_, ?_, ?_, ?_, ?_⟩
  · have := v1 _ (e1 [] holds_init)
    simpa using this
  · rw [hd, hq]; rfl
  · rw [hd, hv]; rfl
  · rw [hd, v5, e5]; rfl
  · rw [hv, v6, e6]; simp [State.init]
  · rw [hd, hq]; simpa using es
  · intro ha
    rw [hd, hq, ea ha]; rfl

theorem symlink_not_approved (w : World) (cfg : Config) (p : Str) (st : stat_t)
    (hf : cfg.follow_symlinks = false) (hl : w.lstat p = some st)
    (hk : S_ISLNK st.st_mode = true) : approved w cfg p = false := by
  have hp : probe w cfg p = some st := by simp [probe, hf, hl]
  unfold approved classify
  rw [is_directory_some w cfg p State.init st hp]
  simp [hk, hf]

theorem visit_text_of_ok (w : World) (cfg : Config) (p : Str)
    (h : (visit w cfg p State.init).1 = 0) : visit_text w cfg p = entry_line w cfg p := by
  unfold visit_text
  rw [visit_ok w cfg p State.init h]
  simp [print, note, State.init]

/-- C11: symlink policy with follow disabled. An entry that the non-following
probe reports as a symbolic link is visited by `traversal` and its text is
written (its whole line when the visit succeeds), but nothing is enqueued for
it and the queue is left as it was; so, unless it is the root itself, it is
never enqueued, never dequeued and never opened for listing in a run, and
every visited path other than the root is a child of a dequeued directory
different from it. -/
theorem C11_symlink_not_followed (w : World) (cfg : Config) (root p : Str) (st : stat_t) (k : Nat)
    (hf : cfg.follow_symlinks = false) (hl : w.lstat p = some st)
    (hk : S_ISLNK st.st_mode = true) :
    (∀ dirname d s, is_dot d = false → child_path dirname d = p →
      visited_paths (traversal_entry w cfg dirname s d).trace = visited_paths s.trace ++ [p] ∧
      (traversal_entry w cfg dirname s d).out = s.out ++ visit_text w cfg p ∧
      enqueued_paths (traversal_entry w cfg dirname s d).trace = enqueued_paths s.trace ∧
      (∀ L, holds s L → holds (traversal_entry w cfg dirname s d) L)) ∧
    ((visit w cfg p State.init).1 = 0 → visit_text w cfg p = entry_line w cfg p) ∧
    (p ≠ root →
      p ∉ enqueued_paths (run w cfg root k).trace ∧
      p ∉ dequeued_paths (run w cfg root k).trace ∧
      p ∉ opened_paths (run w cfg root k).trace ∧
      (∀ q ∈ visited_paths (run w cfg root k).trace, q = root ∨
        ∃ d ∈ dequeued_paths (run w cfg root k).trace, d ≠ p ∧ q ∈ children w d) ∧
      (run w cfg root k).out =
        ((visited_paths (run w cfg root k).trace).map (visit_text w cfg)).flatten) := by
  have hap := symlink_not_approved w cfg p st hf hl hk
  refine ⟨?_, visit_text_of_ok w cfg p, ?_⟩
  · intro dirname d s hdot hp
    obtain ⟨E, ⟨g1, g2, _, g4, _, g6⟩, hs, _⟩ := traversal_entry_grows w cfg dirname d s
    have hE : E = [] := by
      simp only [hdot, Bool.false_eq_true, if_false, hp, List.filter_cons, hap,
        List.filter_nil] at hs
      exact List.eq_nil_of_sublist_nil hs
    subst hE
    simp only [hdot, Bool.false_eq_true, if_false, hp] at g4 g6
    refine ⟨g4, by simpa using g6, by simpa using g2, ?_⟩
    intro L h
    simpa using g1 L h
  · intro hne
    obtain ⟨L, _, h2, h3, h4, h5, h6, _⟩ := bfs_inv_run w cfg root k
    have henq : p ∉ enqueued_paths (run w cfg root k).trace := by
      intro hm
      have hm2 := h6.subset hm
      simp only [List.mem_cons, List.mem_filter] at hm2
      rcases hm2 with hm2 | ⟨_, hm2⟩
      · exact hne hm2
      · rw [hap] at hm2; exact absurd hm2 (by simp)
    have hdeq : p ∉ dequeued_paths (run w cfg root k).trace := by
      intro hm
      exact henq (by rw [h2]; exact List.mem_append_left _ hm)
    refine ⟨henq, hdeq, by rw [h4]; exact hdeq, ?_, h5⟩
    intro q hq
    rw [h3] at hq
    simp only [List.mem_cons, List.mem_flatMap] at hq
    rcases hq with hq | ⟨d, hd, hq⟩
    · exact Or.inl hq
    · exact Or.inr ⟨d, hd, fun e => hdeq (e ▸ hd), hq⟩

/-- C14 at the failing input: the root `r` lists the directory `sub` and then
the file `a.txt`, `r/sub` is a directory holding `b.txt`, and the allocation
for `r/sub` is refused. `enqueue` returns -1, yet `traversal` returns 0 having
visited `r/sub` and then `r/a.txt` after the failed enqueue, and `main` ends
with status 0: the traversal is not aborted, `r/sub` is never opened and
`r/sub/b.txt` beneath it is never visited. -/
theorem C14_failed_enqueue_ignored :
    fs_is_dir World.low_memory "r/sub".toList = true ∧
    World.low_memory.opendir "r/sub".toList = some ["b.txt".toList] ∧
    (enqueue World.low_memory "r/sub".toList
      (enqueue World.low_memory "r".toList State.init).2).1 = -1 ∧
    (traversal World.low_memory Config.off "r".toList
      (enqueue World.low_memory "r".toList State.init).2).1 = 0 ∧
    (traversal World.low_memory Config.off "r".toList
      (enqueue World.low_memory "r".toList State.init).2).2.trace =
      [Event.enqueued "r".toList, Event.listed "r".toList,
       Event.enqueue_failed "r/sub".toList, Event.visited "r/sub".toList,
       Event.visited "r/a.txt".toList] ∧
    (main World.low_memory Config.off (some "r".toList) 5).map (fun r => (r.1, r.2.trace)) =
      some (0, [Event.enqueued "r".toList, Event.visited "r".toList, Event.dequeued "r".toList,
        Event.listed "r".toList, Event.enqueue_failed "r/sub".toList,
        Event.visited "r/sub".toList, Event.visited "r/a.txt".toList]) ∧
    (main World.low_memory Config.off (some "r".toList) 5).map
        (fun r => (decide ("r/sub".toList ∈ opened_paths r.2.trace),
                   decide ("r/sub/b.txt".toList ∈ visited_paths r.2.trace))) =
      some (false, false) := by
  decide

theorem is_directory_brk (w : World) (cfg : Config) (p : Str) (s : State) :
    (is_directory w cfg p s).2.brk = s.brk ∧ (is_directory w cfg p s).2.queue = s.queue ∧
    (is_directory w cfg p s).2.heap = s.heap ∧ (is_directory w cfg p s).2.trace = s.trace := by
  rcases is_directory_state w cfg p s with h | h <;> (rw [h]; exact ⟨rfl, rfl, rfl, rfl⟩)

theorem traversal_entry_enqueue_refused (w : World) (cfg : Config) (dirname d : Str) (s : State)
    (hdot : is_dot d = false) (hap : approved w cfg (child_path dirname d) = true)
    (hno : w.calloc_ok s.brk = false) :
    (enqueue w (child_path dirname d) (is_directory w cfg (child_path dirname d) s).2).1 = -1 ∧
    Diag.perror ∈ (enqueue w (child_path dirname d)
      (is_directory w cfg (child_path dirname d) s).2).2.err ∧
    (traversal_entry w cfg dirname s d).trace =
      s.trace ++ [Event.enqueue_failed (child_path dirname d), Event.visited (child_path dirname d)] ∧
    (traversal_entry w cfg dirname s d).out = s.out ++ visit_text w cfg (child_path dirname d) ∧
    (traversal_entry w cfg dirname s d).queue = s.queue ∧
    (traversal_entry w cfg dirname s d).heap = s.heap ∧
    (∀ rest, (d :: rest).foldl (traversal_entry w cfg dirname) s =
      rest.foldl (traversal_entry w cfg dirname) (traversal_entry w cfg dirname s d)) := by
  obtain ⟨i1, i2, i3, i4⟩ := is_directory_brk w cfg (child_path dirname d) s
  have hno2 : w.calloc_ok (is_directory w cfg (child_path dirname d) s).2.brk = false := by
    rw [i1]; exact hno
  have hd : ¬ (d = ['.'] ∨ d = ['.', '.']) := by
    intro h; simp [is_dot, h] at hdot
  have hr : (is_directory w cfg (child_path dirname d) s).1 ≠ 0 := by
    rw [is_directory_fst]; simpa [approved] using hap
  have hte : traversal_entry w cfg dirname s d =
      (visit w cfg (child_path dirname d)
        (enqueue w (child_path dirname d) (is_directory w cfg (child_path dirname d) s).2).2).2 := by
    unfold traversal_entry
    rw [if_neg hd]
    simp only [hr, ne_eq, not_false_eq_true, if_true]
  obtain ⟨v1, v2, v3, v4, v5⟩ := visit_frame w cfg (child_path dirname d)
    (enqueue w (child_path dirname d) (is_directory w cfg (child_path dirname d) s).2).2
  have hef := enqueue_fail w (child_path dirname d) _ hno2
  refine ⟨by rw [hef], by rw [hef]; simp [note, perror], ?_, ?_, ?_, ?_, fun rest => rfl⟩
  · rw [hte, v4, hef]
    simp [note, perror, i4]
  · rw [hte, v5, enqueue_out]
    rcases is_directory_state w cfg (child_path dirname d) s with h | h
    · rw [h]
    · rw [h]; rfl
  · rw [hte, v3, hef]
    simp [note, perror, i2]
  · rw [hte, v1, hef]
    simp [note, perror, i3]

/-- C11 witness: in the sample tree with the link `r/link`, the link is
visited after the root and is neither enqueued nor opened. -/
theorem C11_symlink_not_followed_witness :
    World.with_link.lstat "r/link".toList = some symlink ∧ S_ISLNK symlink.st_mode = true ∧
    "r/link".toList ∉ enqueued_paths (run World.with_link Config.off "r".toList 3).trace ∧
    "r/link".toList ∉ opened_paths (run World.with_link Config.off "r".toList 3).trace ∧
    visited_paths (traversal_entry World.with_link Config.off "r".toList State.init
      "link".toList).trace = visited_paths State.init.trace ++ ["r/link".toList] ∧
    visit_text World.with_link Config.off "r/link".toList =
      entry_line World.with_link Config.off "r/link".toList :=
  ⟨by decide, by decide,
   ((C11_symlink_not_followed World.with_link Config.off "r".toList "r/link".toList symlink 3
      rfl (by decide) (by decide)).2.2 (by decide)).1,
   ((C11_symlink_not_followed World.with_link Config.off "r".toList "r/link".toList symlink 3
      rfl (by decide) (by decide)).2.2 (by decide)).2.2.1,
   ((C11_symlink_not_followed World.with_link Config.off "r".toList "r/link".toList symlink 3
      rfl (by decide) (by decide)).1 "r".toList "link".toList State.init (by decide) (by decide)).1,
   (C11_symlink_not_followed World.with_link Config.off "r".toList "r/link".toList symlink 3
      rfl (by decide) (by decide)).2.1 (by decide)⟩

/-! ### Listing failure -/

theorem same_progress_refl (s : State) : same_progress s s :=
  ⟨rfl, rfl, rfl, rfl, rfl, rfl, rfl⟩

theorem same_progress_visit (w : World) (cfg : Config) (p : Str) (s t : State)
    (h : same_progress s t) : same_progress (visit w cfg p s).2 (visit w cfg p t).2 := by
  obtain ⟨h1, h2, h3, h4, h5, h6, h7⟩ := h
  obtain ⟨a1, a2, a3, a4, a5⟩ := visit_frame w cfg p s
  obtain ⟨b1, b2, b3, b4, b5⟩ := visit_frame w cfg p t
  refine ⟨?_, ?_, ?_, ?_, ?_, ?_, ?_⟩
  · rw [a1, b1, h1]
  · rw [a2, b2, h2]
  · rw [a3, b3, h3]
  · rw [a5, b5, h4]
  · rw [a4, b4, enqueued_paths_snoc, enqueued_paths_snoc, h5]
  · rw [a4, b4, dequeued_paths_snoc, dequeued_paths_snoc, h6]
  · rw [a4, b4, visited_paths_snoc, visited_paths_snoc, h7]

theorem is_directory_out (w : World) (cfg : Config) (p : Str) (s : State) :
    (is_directory w cfg p s).2.out = s.out := by
  rcases is_directory_state w cfg p s with h | h
  · rw [h]
  · rw [h]; rfl

theorem same_progress_is_directory (w : World) (cfg : Config) (p : Str) (s t : State)
    (h : same_progress s t) :
    same_progress (is_directory w cfg p s).2 (is_directory w cfg p t).2 := by
  obtain ⟨h1, h2, h3, h4, h5, h6, h7⟩ := h
  obtain ⟨a1, a2, a3, a4⟩ := is_directory_brk w cfg p s
  obtain ⟨b1, b2, b3, b4⟩ := is_directory_brk w cfg p t
  refine ⟨?_, ?_, ?_, ?_, ?_, ?_, ?_⟩
  · rw [a3, b3, h1]
  · rw [a1, b1, h2]
  · rw [a2, b2, h3]
  · rw [is_directory_out, is_directory_out, h4]
  · rw [a4, b4, h5]
  · rw [a4, b4, h6]
  · rw [a4, b4, h7]

theorem same_progress_enqueue (w : World) (p : Str) (s t : State) (h : same_progress s t) :
    same_progress (enqueue w p s).2 (enqueue w p t).2 := by
  obtain ⟨h1, h2, h3, h4, h5, h6, h7⟩ := h
  cases hok : w.calloc_ok s.brk with
  | false =>
    rw [enqueue_fail w p s hok, enqueue_fail w p t (by rw [← h2]; exact hok)]
    refine ⟨h1, by simp [note, perror, h2], h3, h4, ?_, ?_, ?_⟩
    · show enqueued_paths (s.trace ++ _) = enqueued_paths (t.trace ++ _)
      rw [enqueued_paths_snoc, enqueued_paths_snoc, h5]
    · show dequeued_paths (s.trace ++ _) = dequeued_paths (t.trace ++ _)
      rw [dequeued_paths_snoc, dequeued_paths_snoc, h6]
    · show visited_paths (s.trace ++ _) = visited_paths (t.trace ++ _)
      rw [visited_paths_snoc, visited_paths_snoc, h7]
  | true =>
    have hok2 : w.calloc_ok t.brk = true := by rw [← h2]; exact hok
    cases he : is_empty s.queue with
    | true =>
      rw [enqueue_ok_empty w p s hok he, enqueue_ok_empty w p t hok2 (by rw [← h3]; exact he)]
      refine ⟨by simp [note, h1, h2], by simp [note, h2], by simp [note, h2, h3], h4, ?_, ?_, ?_⟩
      · show enqueued_paths (s.trace ++ _) = enqueued_paths (t.trace ++ _)
        rw [enqueued_paths_snoc, enqueued_paths_snoc, h5]
      · show dequeued_paths (s.trace ++ _) = dequeued_paths (t.trace ++ _)
        rw [dequeued_paths_snoc, dequeued_paths_snoc, h6]
      · show visited_paths (s.trace ++ _) = visited_paths (t.trace ++ _)
        rw [visited_paths_snoc, visited_paths_snoc, h7]
    | false =>
      rw [enqueue_ok_nonempty w p s hok he,
        enqueue_ok_nonempty w p t hok2 (by rw [← h3]; exact he)]
      refine ⟨by simp [note, h1, h2, h3], by simp [note, h2], by simp [note, h2, h3], h4, ?_, ?_, ?_⟩
      · show enqueued_paths (s.trace ++ _) = enqueued_paths (t.trace ++ _)
        rw [enqueued_paths_snoc, enqueued_paths_snoc, h5]
      · show dequeued_paths (s.trace ++ _) = dequeued_paths (t.trace ++ _)
        rw [dequeued_paths_snoc, dequeued_paths_snoc, h6]
      · show visited_paths (s.trace ++ _) = visited_paths (t.trace ++ _)
        rw [visited_paths_snoc, visited_paths_snoc, h7]

theorem same_progress_dequeue (s t : State) (h : same_progress s t) :
    (dequeue s).1 = (dequeue t).1 ∧ same_progress (dequeue s).2 (dequeue t).2 := by
  obtain ⟨h1, h2, h3, h4, h5, h6, h7⟩ := h
  unfold dequeue
  rw [h3, h1]
  cases is_empty t.queue with
  | true => exact ⟨rfl, h1, h2, h3, h4, h5, h6, h7⟩
  | false =>
    simp only [if_true]
    cases t.queue.front with
    | none => exact ⟨rfl, h1, h2, h3, h4, h5, h6, h7⟩
    | some qn =>
      simp only
      cases t.heap qn with
      | none => exact ⟨rfl, h1, h2, h3, h4, h5, h6, h7⟩
      | some n =>
        simp only
        refine ⟨by first | rfl | trivial, by simp [note, h1], by simp [note, h2],
          by simp [note, h3], by simp [note, h4], ?_, ?_, ?_⟩
        · show enqueued_paths (s.trace ++ _) = enqueued_paths (t.trace ++ _)
          rw [enqueued_paths_snoc, enqueued_paths_snoc, h5]
        · show dequeued_paths (s.trace ++ _) = dequeued_paths (t.trace ++ _)
          rw [dequeued_paths_snoc, dequeued_paths_snoc, h6]
        · show visited_paths (s.trace ++ _) = visited_paths (t.trace ++ _)
          rw [visited_paths_snoc, visited_paths_snoc, h7]

theorem same_progress_traversal_entry (w : World) (cfg : Config) (dirname d : Str) (s t : State)
    (h : same_progress s t) :
    same_progress (traversal_entry w cfg dirname s d) (traversal_entry w cfg dirname t d) := by
  unfold traversal_entry
  by_cases hd : d = ['.'] ∨ d = ['.', '.']
  · rw [if_pos hd, if_pos hd]; exact h
  · rw [if_neg hd, if_neg hd]
    have h1 := same_progress_is_directory w cfg (child_path dirname d) s t h
    simp only [is_directory_fst]
    by_cases hr : classify w cfg (child_path dirname d) ≠ 0
    · rw [if_pos hr, if_pos hr]
      exact same_progress_visit w cfg _ _ _ (same_progress_enqueue w _ _ _ h1)
    · rw [if_neg hr, if_neg hr]
      exact same_progress_visit w cfg _ _ _ h1

theorem same_progress_fold (w : World) (cfg : Config) (dirname : Str) :
    ∀ (ents : List Str) (s t : State), same_progress s t →
      same_progress (ents.foldl (traversal_entry w cfg dirname) s)
        (ents.foldl (traversal_entry w cfg dirname) t) := by
  intro ents
  induction ents with
  | nil => intro s t h; exact h
  | cons d ents ih =>
    intro s t h
    exact ih _ _ (same_progress_traversal_entry w cfg dirname d s t h)

theorem same_progress_note (s t : State) (e f : Event) (h : same_progress s t)
    (he : e.enq = f.enq) (hd : e.deq = f.deq) (hv : e.vis = f.vis) :
    same_progress (note s e) (note t f) := by
  obtain ⟨h1, h2, h3, h4, h5, h6, h7⟩ := h
  refine ⟨h1, h2, h3, h4, ?_, ?_, ?_⟩
  · show enqueued_paths (s.trace ++ [e]) = enqueued_paths (t.trace ++ [f])
    rw [enqueued_paths_snoc, enqueued_paths_snoc, h5, he]
  · show dequeued_paths (s.trace ++ [e]) = dequeued_paths (t.trace ++ [f])
    rw [dequeued_paths_snoc, dequeued_paths_snoc, h6, hd]
  · show visited_paths (s.trace ++ [e]) = visited_paths (t.trace ++ [f])
    rw [visited_paths_snoc, visited_paths_snoc, h7, hv]

theorem same_progress_perror (s t : State) (h : same_progress s t) :
    same_progress (perror s) t := h

theorem traversal_entry_with_empty_dir (w : World) (cfg : Config) (d dirname : Str) :
    traversal_entry (w.with_empty_dir d) cfg dirname = traversal_entry w cfg dirname := rfl

theorem same_progress_traversal (w : World) (cfg : Config) (d x : Str) (s t : State)
    (hfail : w.opendir d = none) (h : same_progress s t) :
    same_progress (traversal w cfg x s).2 (traversal (w.with_empty_dir d) cfg x t).2 := by
  unfold traversal
  by_cases hx : x = d
  · subst hx
    have h2 : (World.with_empty_dir w x).opendir x = some [] := by simp [World.with_empty_dir]
    rw [hfail, h2]
    exact same_progress_note _ _ _ _ (same_progress_perror s t h) rfl rfl rfl
  · have h2 : (World.with_empty_dir w d).opendir x = w.opendir x := by
      simp [World.with_empty_dir, hx]
    rw [h2, traversal_entry_with_empty_dir]
    cases w.opendir x with
    | none => exact same_progress_note _ _ _ _ (same_progress_perror s t h) rfl rfl rfl
    | some ents =>
      exact same_progress_fold w cfg x ents _ _ (same_progress_note _ _ _ _ h rfl rfl rfl)

theorem same_progress_body (w : World) (cfg : Config) (d : Str) (s t : State)
    (hfail : w.opendir d = none) (h : same_progress s t) :
    same_progress (breadthfirst_body w cfg s) (breadthfirst_body (w.with_empty_dir d) cfg t) := by
  obtain ⟨h1, h2⟩ := same_progress_dequeue s t h
  unfold breadthfirst_body
  cases hs : dequeue s with
  | mk r1 s1 =>
    cases ht : dequeue t with
    | mk r2 t1 =>
      rw [hs, ht] at h1 h2
      simp only at h1 h2
      subst h1
      cases r1 with
      | none => exact h2
      | some next => exact same_progress_traversal w cfg d next s1 t1 hfail h2

theorem same_progress_loop (w : World) (cfg : Config) (d : Str) (hfail : w.opendir d = none) :
    ∀ (k : Nat) (s t : State), same_progress s t →
      same_progress (breadthfirst_loop w cfg k s)
        (breadthfirst_loop (w.with_empty_dir d) cfg k t) := by
  intro k
  induction k with
  | zero => intro s t h; exact h
  | succ k ih =>
    intro s t h
    unfold breadthfirst_loop
    rw [h.2.2.1]
    cases is_empty t.queue with
    | true => simpa using h
    | false =>
      simp only [Bool.false_eq_true, if_false]
      exact ih _ _ (same_progress_body w cfg d s t hfail h)

/-- C13: recoverable listing failure. When a directory cannot be opened for
listing, `traversal` returns -1 having emitted one diagnostic and nothing
else: nothing is visited, nothing enqueued, queue and standard output are
untouched; and from any queue state the loop of `breadthfirst`, and the whole
run, go on exactly as in the world in which that directory is empty: same
heap, same queue, same standard output, same paths enqueued, dequeued and
visited after any number of iterations. -/
theorem C13_listing_failure_recoverable (w : World) (cfg : Config) (d : Str)
    (hfail : w.opendir d = none) :
    (∀ s, traversal w cfg d s = (-1, note (perror s) (Event.list_failed d))) ∧
    (∀ s, (traversal w cfg d s).2.err = s.err ++ [Diag.perror] ∧
      (traversal w cfg d s).2.out = s.out ∧
      (traversal w cfg d s).2.queue = s.queue ∧
      (traversal w cfg d s).2.heap = s.heap ∧
      visited_paths (traversal w cfg d s).2.trace = visited_paths s.trace ∧
      enqueued_paths (traversal w cfg d s).2.trace = enqueued_paths s.trace) ∧
    (∀ s, traversal (w.with_empty_dir d) cfg d s = (0, note s (Event.listed d))) ∧
    (∀ k s, same_progress (breadthfirst_loop w cfg k s)
      (breadthfirst_loop (w.with_empty_dir d) cfg k s)) ∧
    (∀ root k, same_progress (run w cfg root k) (run (w.with_empty_dir d) cfg root k)) := by
  have ht : ∀ s, traversal w cfg d s = (-1, note (perror s) (Event.list_failed d)) := by
    intro s
    unfold traversal
    rw [hfail]
  refine ⟨ht, ?_, ?_, ?_, ?_⟩
  · intro s
    rw [ht s]
    refine ⟨rfl, rfl, rfl, rfl, ?_, ?_⟩
    · show visited_paths (s.trace ++ [Event.list_failed d]) = _
      rw [visited_paths_snoc]; simp [Event.vis]
    · show enqueued_paths (s.trace ++ [Event.list_failed d]) = _
      rw [enqueued_paths_snoc]; simp [Event.enq]
  · intro s
    unfold traversal
    have h2 : (World.with_empty_dir w d).opendir d = some [] := by simp [World.with_empty_dir]
    rw [h2]
    rfl
  · intro k s
    exact same_progress_loop w cfg d hfail k s s (same_progress_refl s)
  · intro root k
    exact same_progress_loop w cfg d hfail k _ _ (same_progress_refl _)

/-- C13 witness: in the world where `d` lists the entry `x` that cannot be
probed, `d/x` is enqueued and its listing fails when it is dequeued. -/
theorem C13_listing_failure_recoverable_witness :
    World.vanished_child.opendir "d/x".toList = none ∧
    traversal World.vanished_child Config.off "d/x".toList State.init =
      (-1, note (perror State.init) (Event.list_failed "d/x".toList)) ∧
    same_progress (run World.vanished_child Config.off "d".toList 2)
      (run (World.vanished_child.with_empty_dir "d/x".toList) Config.off "d".toList 2) :=
  ⟨rfl,
   (C13_listing_failure_recoverable World.vanished_child Config.off "d/x".toList rfl).1
     State.init,
   (C13_listing_failure_recoverable World.vanished_child Config.off "d/x".toList rfl).2.2.2.2
     "d".toList 2⟩

/-! ### Exhaustion of a finite tree -/

theorem approved_eq_fs_is_dir (w : World) (cfg : Config) (p : Str)
    (hf : cfg.follow_symlinks = false) (hp : w.lstat p ≠ none) :
    approved w cfg p = fs_is_dir w p := by
  cases hl : w.lstat p with
  | none => exact absurd hl hp
  | some st =>
    have hpr : probe w cfg p = some st := by simp [probe, hf, hl]
    unfold approved classify fs_is_dir
    rw [is_directory_some w cfg p State.init st hpr, hl]
    cases hk : S_ISLNK st.st_mode with
    | true =>
      have := not_dir_of_other_type st.st_mode (Or.inl hk)
      simp [hf, this]
    | false => cases hd : S_ISDIR st.st_mode <;> simp [hd]

theorem breadthfirst_loop_of_empty (w : World) (cfg : Config) (k : Nat) (s : State)
    (he : is_empty s.queue = true) : breadthfirst_loop w cfg k s = s := by
  cases k with
  | zero => rfl
  | succ k => unfold breadthfirst_loop; rw [if_pos he]

theorem breadthfirst_loop_add (w : World) (cfg : Config) :
    ∀ (a b : Nat) (s : State),
      breadthfirst_loop w cfg (a + b) s = breadthfirst_loop w cfg b (breadthfirst_loop w cfg a s) := by
  intro a
  induction a with
  | zero => intro b s; simp [breadthfirst_loop]
  | succ a ih =>
    intro b s
    rw [show a + 1 + b = (a + b) + 1 by omega]
    by_cases he : is_empty s.queue = true
    · rw [breadthfirst_loop_of_empty w cfg _ s he, breadthfirst_loop_of_empty w cfg _ s he,
        breadthfirst_loop_of_empty w cfg _ s he]
    · conv_lhs => unfold breadthfirst_loop
      conv_rhs => rw [breadthfirst_loop]
      rw [if_neg he, if_neg he]
      exact ih b _

theorem breadthfirst_loop_succ (w : World) (cfg : Config) (k : Nat) (s : State) (x : Str)
    (L : List Str) (h : holds s (x :: L)) :
    breadthfirst_loop w cfg (k + 1) s = breadthfirst_loop w cfg k (breadthfirst_body w cfg s) := by
  have he : ¬ is_empty s.queue = true := by
    intro he
    exact absurd ((holds_is_empty s _ h).1 he) (by simp)
  conv_lhs => unfold breadthfirst_loop
  rw [if_neg he]

theorem process_level (w : World) (cfg : Config) (halloc : ∀ i, w.calloc_ok i = true) :
    ∀ (A : List Str) (s : State) (B : List Str), holds s (A ++ B) →
      holds (breadthfirst_loop w cfg A.length s)
        (B ++ (A.flatMap (children w)).filter (approved w cfg)) ∧
      dequeued_paths (breadthfirst_loop w cfg A.length s).trace = dequeued_paths s.trace ++ A := by
  intro A
  induction A with
  | nil => intro s B h; simpa [breadthfirst_loop] using h
  | cons a A ih =>
    intro s B h
    obtain ⟨E, b1, _, b3, _, _, _, _, b8⟩ := breadthfirst_body_general w cfg s a (A ++ B) h
    rw [b8 halloc, List.append_assoc] at b1
    obtain ⟨i1, i2⟩ := ih (breadthfirst_body w cfg s) _ b1
    rw [List.length_cons, breadthfirst_loop_succ w cfg A.length s a (A ++ B) h]
    refine ⟨?_, ?_⟩
    · simpa [List.flatMap_cons, List.filter_append, List.append_assoc] using i1
    · rw [i2, b3]; simp

theorem tree_dirs_succ (w : World) (root : Str) (i : Nat) :
    tree_dirs w root (i + 1) = tree_dirs w root i ++ level_dirs w root i := by
  simp [tree_dirs, List.range_succ, List.flatMap_append]

theorem level_subset_tree_dirs (w : World) (root : Str) (i n : Nat) (h : i < n) (d : Str)
    (hd : d ∈ level_dirs w root i) : d ∈ tree_dirs w root n := by
  unfold tree_dirs
  rw [List.mem_flatMap]
  exact ⟨i, List.mem_range.2 h, hd⟩

theorem run_add (w : World) (cfg : Config) (root : Str) (a b : Nat) :
    run w cfg root (a + b) = breadthfirst_loop w cfg b (run w cfg root a) := by
  unfold run breadthfirst_steps
  exact breadthfirst_loop_add w cfg a b _

theorem run_zero (w : World) (cfg : Config) (root : Str) (h0 : w.calloc_ok 0 = true) :
    holds (run w cfg root 0) [root] ∧ dequeued_paths (run w cfg root 0).trace = [] := by
  have hr : run w cfg root 0 = (visit w cfg root (enqueue w root State.init).2).2 := rfl
  obtain ⟨v1, v2, v3, v4, _⟩ := visit_frame w cfg root (enqueue w root State.init).2
  have he := (enqueue_ok_holds w root State.init [] holds_init h0).2
  rw [hr]
  refine ⟨holds_congr _ _ _ v1 v3 v2 (by simpa using he), ?_⟩
  rw [v4, dequeued_paths_snoc, enqueue_ok_trace w root State.init h0, dequeued_paths_snoc]
  simp [Event.deq, State.init, dequeued_paths]

theorem run_levels (w : World) (cfg : Config) (root : Str) (n : Nat)
    (hf : cfg.follow_symlinks = false)
    (hprobe : ∀ p ∈ tree_entries w root n, w.lstat p ≠ none)
    (halloc : ∀ i, w.calloc_ok i = true) :
    ∀ i, i ≤ n →
      holds (run w cfg root (tree_dirs w root i).length) (level_dirs w root i) ∧
      dequeued_paths (run w cfg root (tree_dirs w root i).length).trace = tree_dirs w root i := by
  intro i
  induction i with
  | zero =>
    intro _
    have h0 : tree_dirs w root 0 = [] := by simp [tree_dirs]
    rw [h0]
    exact run_zero w cfg root (halloc 0)
  | succ i ih =>
    intro hi
    obtain ⟨i1, i2⟩ := ih (by omega)
    obtain ⟨p1, p2⟩ := process_level w cfg halloc (level_dirs w root i)
      (run w cfg root (tree_dirs w root i).length) [] (by simpa using i1)
    have hfilt : ((level_dirs w root i).flatMap (children w)).filter (approved w cfg) =
        level_dirs w root (i + 1) := by
      show _ = ((level_dirs w root i).flatMap (children w)).filter (fs_is_dir w)
      apply List.filter_congr
      intro x hx
      apply approved_eq_fs_is_dir w cfg x hf
      apply hprobe
      unfold tree_entries
      rw [List.mem_flatMap] at hx
      obtain ⟨d, hd, hxd⟩ := hx
      exact List.mem_cons_of_mem _
        (List.mem_flatMap.2 ⟨d, level_subset_tree_dirs w root i n (by omega) d hd, hxd⟩)
    rw [tree_dirs_succ, List.length_append, run_add]
    refine ⟨?_, ?_⟩
    · rw [← hfilt]; simpa using p1
    · rw [p2, i2]

theorem run_stable (w : World) (cfg : Config) (root : Str) (a : Nat)
    (he : is_empty (run w cfg root a).queue = true) :
    ∀ fuel, a ≤ fuel → run w cfg root fuel = run w cfg root a := by
  intro fuel hle
  obtain ⟨b, rfl⟩ := Nat.exists_eq_add_of_le hle
  rw [run_add, breadthfirst_loop_of_empty w cfg b _ he]

theorem traversal_fst_of_listing (w : World) (cfg : Config) (d : Str) (s : State)
    (h : w.opendir d ≠ none) : (traversal w cfg d s).1 = 0 := by
  unfold traversal
  cases ho : w.opendir d with
  | none => exact absurd ho h
  | some ents => rfl

theorem tree_dirs_are_dirs (w : World) (root : Str) :
    ∀ (n : Nat) (d : Str), d ∈ tree_dirs w root n → d = root ∨ fs_is_dir w d = true := by
  intro n d hd
  unfold tree_dirs at hd
  rw [List.mem_flatMap] at hd
  obtain ⟨i, _, hi⟩ := hd
  cases i with
  | zero => exact Or.inl (by simpa [level_dirs] using hi)
  | succ i =>
    unfold level_dirs at hi
    exact Or.inr (List.mem_filter.1 hi).2

theorem dirs_in_tree_dirs (w : World) (root : Str) (n : Nat) (hfin : level_dirs w root n = [])
    (p : Str) (hp : p ∈ (tree_dirs w root n).flatMap (children w)) (hd : fs_is_dir w p = true) :
    p ∈ tree_dirs w root n := by
  rw [List.mem_flatMap] at hp
  obtain ⟨d, hdm, hpd⟩ := hp
  unfold tree_dirs at hdm
  rw [List.mem_flatMap] at hdm
  obtain ⟨i, hi, hdi⟩ := hdm
  have hlt : i < n := List.mem_range.1 hi
  have hmem : p ∈ level_dirs w root (i + 1) := by
    show p ∈ ((level_dirs w root i).flatMap (children w)).filter (fs_is_dir w)
    exact List.mem_filter.2 ⟨List.mem_flatMap.2 ⟨d, hdi, hpd⟩, hd⟩
  by_cases hn : i + 1 < n
  · exact level_subset_tree_dirs w root (i + 1) n hn p hmem
  · have : i + 1 = n := by omega
    rw [this, hfin] at hmem
    exact absurd hmem (by simp)

theorem count_one_of_nodup (l : List Str) (a : Str) (hnd : l.Nodup) (ha : a ∈ l) :
    l.count a = 1 := by
  induction l with
  | nil => simp at ha
  | cons b l ih =>
    rw [List.nodup_cons] at hnd
    rw [List.count_cons]
    by_cases hab : b = a
    · subst hab
      have h0 : l.count b = 0 := List.count_eq_zero.2 hnd.1
      simp [h0]
    · have hmem : a ∈ l := by
        rcases List.mem_cons.1 ha with h | h
        · exact absurd h.symm hab
        · exact h
      simp [ih hnd.2 hmem, hab]

/-- C17 (amended): exhaustion and termination. For a finite directory tree
(no directory at depth `n`, pairwise distinct paths) on which every probe and
listing succeeds, with the follow flag off and every node allocation granted,
`breadthfirst` returns for every fuel at least the number of directories; it
returns with the queue empty; the paths enqueued are the root and every
directory beneath it, each dequeued exactly once and listed exactly once, its
listing succeeding; and the root and every entry beneath it are each visited
exactly once. -/
theorem C17_exhaustion (w : World) (cfg : Config) (root : Str) (n : Nat)
    (hf : cfg.follow_symlinks = false)
    (hfin : level_dirs w root n = [])
    (hprobe : ∀ p ∈ tree_entries w root n, w.lstat p ≠ none)
    (hlist : ∀ d ∈ tree_dirs w root n, w.opendir d ≠ none)
    (hnodup : (tree_entries w root n).Nodup)
    (halloc : ∀ i, w.calloc_ok i = true) :
    ∀ fuel, (tree_dirs w root n).length ≤ fuel →
      breadthfirst w cfg root fuel (enqueue w root State.init).2 = some (0, run w cfg root fuel) ∧
      is_empty (run w cfg root fuel).queue = true ∧
      holds (run w cfg root fuel) [] ∧
      enqueued_paths (run w cfg root fuel).trace = tree_dirs w root n ∧
      dequeued_paths (run w cfg root fuel).trace = tree_dirs w root n ∧
      opened_paths (run w cfg root fuel).trace = tree_dirs w root n ∧
      visited_paths (run w cfg root fuel).trace = tree_entries w root n ∧
      (∀ d ∈ tree_dirs w root n,
        (d = root ∨ fs_is_dir w d = true) ∧
        (dequeued_paths (run w cfg root fuel).trace).count d = 1 ∧
        (opened_paths (run w cfg root fuel).trace).count d = 1 ∧
        ∀ s, (traversal w cfg d s).1 = 0) ∧
      (∀ p ∈ tree_entries w root n,
        (visited_paths (run w cfg root fuel).trace).count p = 1 ∧
        (fs_is_dir w p = true → p ∈ tree_dirs w root n)) := by
  intro fuel hfuel
  obtain ⟨l1, l2⟩ := run_levels w cfg root n hf hprobe halloc n (Nat.le_refl n)
  rw [hfin] at l1
  have he0 : is_empty (run w cfg root (tree_dirs w root n).length).queue = true :=
    (holds_is_empty _ [] l1).2 rfl
  have hst := run_stable w cfg root _ he0 fuel hfuel
  rw [← hst] at l1 l2 he0
  obtain ⟨L, h1, h2, h3, h4, _, h6, _⟩ := bfs_inv_run w cfg root fuel
  have hL : L = [] := (holds_is_empty _ L h1).1 he0
  subst hL
  rw [List.append_nil] at h2
  have henq : enqueued_paths (run w cfg root fuel).trace = tree_dirs w root n := by rw [h2, l2]
  have hvis : visited_paths (run w cfg root fuel).trace = tree_entries w root n := by
    rw [h3, l2]; rfl
  have hsub : (tree_dirs w root n).Sublist (tree_entries w root n) := by
    rw [henq, l2] at h6
    exact h6.trans (List.Sublist.cons₂ _ (List.filter_sublist _))
  have hnd : (tree_dirs w root n).Nodup := hnodup.sublist hsub
  refine ⟨?_, he0, l1, henq, l2, by rw [h4, l2], hvis, ?_, ?_⟩
  · unfold breadthfirst
    have : breadthfirst_steps w cfg root fuel (enqueue w root State.init).2 = run w cfg root fuel :=
      rfl
    rw [this, if_pos he0]
  · intro d hd
    refine ⟨tree_dirs_are_dirs w root n d hd, ?_, ?_, fun s =>
      traversal_fst_of_listing w cfg d s (hlist d hd)⟩
    · rw [l2]; exact count_one_of_nodup _ d hnd hd
    · rw [h4, l2]; exact count_one_of_nodup _ d hnd hd
  · intro p hp
    refine ⟨by rw [hvis]; exact count_one_of_nodup _ p hnodup hp, ?_⟩
    intro hdir
    unfold tree_entries at hp
    rcases List.mem_cons.1 hp with hp | hp
    · subst hp
      cases n with
      | zero => simp [level_dirs] at hfin
      | succ n => exact level_subset_tree_dirs w p 0 (n + 1) (by omega) p (by simp [level_dirs])
    · exact dirs_in_tree_dirs w root n hfin p hp hdir

/-- C17 witness: the sample tree, of depth 2, is exhausted in two iterations. -/
theorem C17_exhaustion_witness :
    breadthfirst World.tree Config.off "r".toList 2 (enqueue World.tree "r".toList State.init).2 =
      some (0, run World.tree Config.off "r".toList 2) ∧
    is_empty (run World.tree Config.off "r".toList 2).queue = true ∧
    dequeued_paths (run World.tree Config.off "r".toList 2).trace = tree_dirs World.tree "r".toList 2 ∧
    visited_paths (run World.tree Config.off "r".toList 2).trace =
      tree_entries World.tree "r".toList 2 :=
  ⟨(C17_exhaustion World.tree Config.off "r".toList 2 rfl (by decide) (by decide) (by decide)
      (by decide) (fun _ => rfl) 2 (by decide)).1,
   (C17_exhaustion World.tree Config.off "r".toList 2 rfl (by decide) (by decide) (by decide)
      (by decide) (fun _ => rfl) 2 (by decide)).2.1,
   (C17_exhaustion World.tree Config.off "r".toList 2 rfl (by decide) (by decide) (by decide)
      (by decide) (fun _ => rfl) 2 (by decide)).2.2.2.2.1,
   (C17_exhaustion World.tree Config.off "r".toList 2 rfl (by decide) (by decide) (by decide)
      (by decide) (fun _ => rfl) 2 (by decide)).2.2.2.2.2.2.1⟩

/-- C17 counterexample: on the sample tree, a finite tree on which every
probe and listing succeeds, with the follow flag off, when the node
allocations are refused `breadthfirst` returns having visited the root only:
the entry `r/a.txt` beneath the root is never visited and the directory
`r/sub` is never enqueued. -/
theorem C17_counterexample :
    level_dirs World.tree_no_memory "r".toList 2 = [] ∧
    (∀ p ∈ tree_entries World.tree_no_memory "r".toList 2, World.tree_no_memory.lstat p ≠ none) ∧
    (∀ d ∈ tree_dirs World.tree_no_memory "r".toList 2, World.tree_no_memory.opendir d ≠ none) ∧
    (tree_entries World.tree_no_memory "r".toList 2).Nodup ∧
    "r/a.txt".toList ∈ tree_entries World.tree_no_memory "r".toList 2 ∧
    "r/sub".toList ∈ tree_dirs World.tree_no_memory "r".toList 2 ∧
    (breadthfirst World.tree_no_memory Config.off "r".toList 5
      (enqueue World.tree_no_memory "r".toList State.init).2).map
        (fun r => (visited_paths r.2.trace, enqueued_paths r.2.trace)) =
      some (["r".toList], []) := by
  decide

/-! ### End-to-end example -/

theorem visit_text_no_fields (w : World) (follow : Bool) (p : Str) :
    visit_text w ⟨follow, false, false, false, false, false, false, false⟩ p =
      size_field ⟨follow, false, false, false, false, false, false, false⟩
        (visit_stat w ⟨follow, false, false, false, false, false, false, false⟩ p).st_size ++
        p ++ ['\n'] := by
  simp [visit_text, visit, visit_owner, visit_group, visit_head, visit_tail, print, note, State.init]

theorem approved_of_probe (w : World) (cfg : Config) (p : Str) (st : stat_t)
    (h : probe w cfg p = some st) (hl : S_ISLNK st.st_mode = false) :
    approved w cfg p = S_ISDIR st.st_mode := by
  unfold approved classify
  rw [is_directory_some w cfg p State.init st h]
  cases hd : S_ISDIR st.st_mode <;> simp [hl, hd]

/-- C12 (amended): end-to-end example. For a root directory whose listing
yields the file `a.txt` (5 bytes) and then the subdirectory `sub`, which
contains `b.txt` (2000 bytes), with no field flag on, units disabled and the
node allocations granted, `breadthfirst` returns after two iterations having
printed exactly four lines in this order: the root's line, the `a.txt` line
whose size field is 9 spaces, `5` and a space, the line of `sub`, and the
`b.txt` line whose size field is 6 spaces, `2000` and a space. -/
theorem C12_end_to_end (w : World) (follow : Bool) (root : Str) (ents1 ents2 : List Str)
    (sta std stb : stat_t)
    (h1 : w.opendir root = some ents1)
    (h1f : ents1.filter (fun d => !is_dot d) = ["a.txt".toList, "sub".toList])
    (h2 : w.opendir (child_path root "sub".toList) = some ents2)
    (h2f : ents2.filter (fun d => !is_dot d) = ["b.txt".toList])
    (ha : probe w ⟨follow, false, false, false, false, false, false, false⟩
      (child_path root "a.txt".toList) = some sta)
    (ha1 : sta.st_size = 5) (ha2 : S_ISDIR sta.st_mode = false) (ha3 : S_ISLNK sta.st_mode = false)
    (hs : probe w ⟨follow, false, false, false, false, false, false, false⟩
      (child_path root "sub".toList) = some std)
    (hs1 : S_ISDIR std.st_mode = true)
    (hb : probe w ⟨follow, false, false, false, false, false, false, false⟩
      (child_path (child_path root "sub".toList) "b.txt".toList) = some stb)
    (hb1 : stb.st_size = 2000) (hb2 : S_ISDIR stb.st_mode = false)
    (hb3 : S_ISLNK stb.st_mode = false)
    (halloc : ∀ i, w.calloc_ok i = true) :
    breadthfirst w ⟨follow, false, false, false, false, false, false, false⟩ root 2
        (enqueue w root State.init).2 =
      some (0, run w ⟨follow, false, false, false, false, false, false, false⟩ root 2) ∧
    visited_paths (run w ⟨follow, false, false, false, false, false, false, false⟩ root 2).trace =
      [root, child_path root "a.txt".toList, child_path root "sub".toList,
       child_path (child_path root "sub".toList) "b.txt".toList] ∧
    (run w ⟨follow, false, false, false, false, false, false, false⟩ root 2).out =
      (size_field ⟨follow, false, false, false, false, false, false, false⟩
          (visit_stat w ⟨follow, false, false, false, false, false, false, false⟩ root).st_size ++
        root ++ ['\n']) ++
      ("         5 ".toList ++ child_path root "a.txt".toList ++ ['\n']) ++
      (size_field ⟨follow, false, false, false, false, false, false, false⟩ std.st_size ++
        child_path root "sub".toList ++ ['\n']) ++
      ("      2000 ".toList ++ child_path (child_path root "sub".toList) "b.txt".toList ++
        ['\n']) := by
  have hls : S_ISLNK std.st_mode = false := by
    cases hk : S_ISLNK std.st_mode with
    | false => rfl
    | true =>
      have := not_dir_of_other_type std.st_mode (Or.inl hk)
      rw [this] at hs1
      exact absurd hs1 (by simp)
  have hapa := approved_of_probe w _ _ sta ha ha3
  have haps := approved_of_probe w _ _ std hs hls
  have hapb := approved_of_probe w _ _ stb hb hb3
  rw [ha2] at hapa
  rw [hs1] at haps
  rw [hb2] at hapb
  have hc1 : children w root = [child_path root "a.txt".toList, child_path root "sub".toList] := by
    unfold children
    rw [h1]
    show List.map _ (List.filter _ ents1) = _
    rw [h1f]
    rfl
  have hc2 : children w (child_path root "sub".toList) =
      [child_path (child_path root "sub".toList) "b.txt".toList] := by
    unfold children
    rw [h2]
    show List.map _ (List.filter _ ents2) = _
    rw [h2f]
    rfl
  obtain ⟨r1, r2⟩ := run_zero w ⟨follow, false, false, false, false, false, false, false⟩ root
    (halloc 0)
  obtain ⟨p1, p2⟩ := process_level w ⟨follow, false, false, false, false, false, false, false⟩
    halloc [root] _ [] (by simpa using r1)
  rw [List.length_singleton, ← run_add] at p1 p2
  simp only [List.flatMap_cons, List.flatMap_nil, List.append_nil, hc1, List.filter_cons, hapa,
    haps, List.filter_nil, List.nil_append, Bool.false_eq_true, if_false, if_true, r2] at p1 p2
  obtain ⟨q1, q2⟩ := process_level w ⟨follow, false, false, false, false, false, false, false⟩
    halloc [child_path root "sub".toList] _ [] (by simpa using p1)
  rw [List.length_singleton, ← run_add] at q1 q2
  simp only [List.flatMap_cons, List.flatMap_nil, List.append_nil, hc2, List.filter_cons, hapb,
    List.filter_nil, List.nil_append, Bool.false_eq_true, if_false, p2] at q1 q2
  have he : is_empty (run w ⟨follow, false, false, false, false, false, false, false⟩ root
      (0 + 1 + 1)).queue = true := (holds_is_empty _ [] q1).2 rfl
  obtain ⟨L, _, _, h3, _, h5, _, _⟩ :=
    bfs_inv_run w ⟨follow, false, false, false, false, false, false, false⟩ root 2
  have e2 : (0 + 1 + 1 : Nat) = 2 := rfl
  rw [e2] at q2 he
  have hv : visited_paths
      (run w ⟨follow, false, false, false, false, false, false, false⟩ root 2).trace =
      [root, child_path root "a.txt".toList, child_path root "sub".toList,
       child_path (child_path root "sub".toList) "b.txt".toList] := by
    rw [h3, q2]
    simp only [List.flatMap_append, List.flatMap_cons, List.flatMap_nil, hc1, hc2,
      List.append_nil]
    rfl
  refine ⟨?_, hv, ?_⟩
  · unfold breadthfirst
    have : breadthfirst_steps w ⟨follow, false, false, false, false, false, false, false⟩ root 2
        (enqueue w root State.init).2 =
        run w ⟨follow, false, false, false, false, false, false, false⟩ root 2 := rfl
    rw [this, if_pos he]
  · have hsa : visit_stat w ⟨follow, false, false, false, false, false, false, false⟩
        (child_path root "a.txt".toList) = sta := by
      unfold visit_stat; rw [ha]
    have hss : visit_stat w ⟨follow, false, false, false, false, false, false, false⟩
        (child_path root "sub".toList) = std := by
      unfold visit_stat; rw [hs]
    have hsb : visit_stat w ⟨follow, false, false, false, false, false, false, false⟩
        (child_path (child_path root "sub".toList) "b.txt".toList) = stb := by
      unfold visit_stat; rw [hb]
    have hf5 : size_field ⟨follow, false, false, false, false, false, false, false⟩ 5 =
        "         5 ".toList := by simp [size_field]; decide
    have hf2000 : size_field ⟨follow, false, false, false, false, false, false, false⟩ 2000 =
        "      2000 ".toList := by simp [size_field]; decide
    rw [h5, hv]
    simp only [List.map_cons, List.map_nil, List.flatten_cons, List.flatten_nil,
      visit_text_no_fields, hsa, hss, hsb, ha1, hb1, hf5, hf2000, List.append_nil,
      List.append_assoc]

/-- C12 witness: the sample tree with the root `r`. -/
theorem C12_end_to_end_witness :
    (run World.tree ⟨false, false, false, false, false, false, false, false⟩ "r".toList 2).out =
      (size_field ⟨false, false, false, false, false, false, false, false⟩
          (visit_stat World.tree ⟨false, false, false, false, false, false, false, false⟩
            "r".toList).st_size ++ "r".toList ++ ['\n']) ++
      ("         5 ".toList ++ child_path "r".toList "a.txt".toList ++ ['\n']) ++
      (size_field ⟨false, false, false, false, false, false, false, false⟩ directory.st_size ++
        child_path "r".toList "sub".toList ++ ['\n']) ++
      ("      2000 ".toList ++ child_path (child_path "r".toList "sub".toList) "b.txt".toList ++
        ['\n']) :=
  (C12_end_to_end World.tree false "r".toList
    [".".toList, "..".toList, "a.txt".toList, "sub".toList]
    [".".toList, "..".toList, "b.txt".toList]
    (regular_file 0o644 5) directory (regular_file 0o644 2000)
    (by decide) (by decide) (by decide) (by decide) (by decide) (by decide) (by decide)
    (by decide) (by decide) (by decide) (by decide) (by decide) (by decide) (by decide)
    (fun _ => rfl)).2.2

/-- C12 counterexample: on the sample tree `breadthfirst` prints four lines,
the line of `r/sub` standing between those of `r/a.txt` and `r/sub/b.txt`,
and not the three lines of the claim. -/
theorem C12_counterexample :
    (breadthfirst World.tree Config.off "r".toList 2
        (enqueue World.tree "r".toList State.init).2).map (fun r => r.2.out) =
      some "      4096 r\n         5 r/a.txt\n      4096 r/sub\n      2000 r/sub/b.txt\n".toList ∧
    (breadthfirst World.tree Config.off "r".toList 2
        (enqueue World.tree "r".toList State.init).2).map (fun r => r.2.out) ≠
      some "      4096 r\n         5 r/a.txt\n      2000 r/sub/b.txt\n".toList := by
  decide

end Bt
